import Mathlib

/-!
# Cache-aside feed assembly and session identity cache (`golang/app.go`)

A shallow embedding of `makePosts`, `getSessionUser` and `isLogin` from
`src/golang/app.go`, together with the collaborators they call:

* the memcached client (`Get`, `GetMulti`, `Set`) is a key/value state inside `World`;
* the relational store (`db.Get`, `db.Select`) is a pair of tables inside `World`, and the
  three SQL texts that occur in the two functions are given as list programs;
* `encoding/json` is a parameter of the world (`Codec`);
* `strconv.Itoa` / `strconv.Atoi` and the `%d` / `%v` verbs on integers are modelled on the
  64-bit `int` of Go.

Every call to a collaborator may fail: `World.fault` says, for the n-th collaborator call
of a run, whether it fails.  Each call appends one `Event` to `World.trace`, so the number
and order of round trips can be stated.  `log.Print` is not modelled.
-/

set_option linter.dupNamespace false

namespace PrivateIsu

/-! ## Data model (`app.go` lines 42-71) -/

/-- Row of the users table; `CreatedAt` is an instant, kept as a number of seconds. -/
structure User where
  ID : Int
  AccountName : String
  Passhash : String
  Authority : Int
  DelFlg : Int
  CreatedAt : Int
deriving DecidableEq

/-- Row of the comments table with the commenting user embedded (filled by a join). -/
structure Comment where
  ID : Int
  PostID : Int
  UserID : Int
  Comment : String
  CreatedAt : Int
  User : User
deriving DecidableEq

/-- Row of the posts table plus the derived view fields of a feed item. -/
structure Post where
  ID : Int
  UserID : Int
  Imgdata : String
  Body : String
  Mime : String
  CreatedAt : Int
  CommentCount : Int
  Comments : List Comment
  User : User
  CSRFToken : String
deriving DecidableEq

/-- The Go zero value `User{}`. -/
def User.zero : User := ⟨0, "", "", 0, 0, 0⟩

/-- The errors the two functions can see. -/
inductive Error where
  | ErrCacheMiss
  | ErrCacheUnavailable
  | ErrStoreUnavailable
  | ErrNoRows
  | ErrSyntax
  | ErrRange
  | ErrJSON
deriving DecidableEq

/-! ## `strconv` on the 64-bit `int` -/

/-- Largest value of Go's `int` on a 64-bit platform. -/
def maxInt : Int := 9223372036854775807

/-- Smallest value of Go's `int` on a 64-bit platform. -/
def minInt : Int := -9223372036854775808

/-- The ASCII digit of a number below ten. -/
def digitChar (d : Nat) : Char := Char.ofNat (48 + d)

/-- Decimal digits of `n`, most significant first, pushed in front of `acc`. -/
def formatDigits : Nat → Nat → List Char → List Char
  | 0, _, acc => acc
  | fuel + 1, n, acc =>
    if n < 10 then digitChar n :: acc
    else formatDigits fuel (n / 10) (digitChar (n % 10) :: acc)

/-- Decimal rendering of a natural number. -/
def formatNat (n : Nat) : List Char := formatDigits (n + 1) n []

/-- Go's `strconv.Itoa`, which is also what the verbs `%d` and `%v` print for an integer. -/
def Itoa (n : Int) : String :=
  match n with
  | Int.ofNat m => String.mk (formatNat m)
  | Int.negSucc m => String.mk ('-' :: formatNat (m + 1))

/-- Value of a run of ASCII digits read after the accumulator `acc`, without any bound;
`none` at the first character that is not a digit.  Used to reason about decimal renderings;
`Atoi` itself goes through `parseUintLoop`. -/
def parseDigits : List Char → Nat → Option Nat
  | [], acc => some acc
  | c :: cs, acc =>
    if 48 ≤ c.toNat ∧ c.toNat ≤ 57 then parseDigits cs (acc * 10 + (c.toNat - 48))
    else none

/-- Largest value of `uint64`. -/
def maxUint64 : Nat := 18446744073709551615

/-- The loop of `strconv.ParseUint` in base 10 with 64 bits, `n` being the value read so
far.  Characters are taken from the left: one that is not a digit ends the loop with a
syntax error and the value 0; a digit at which the value would leave `uint64` ends it at
once with a range error and the value `maxUint64`, whatever follows. -/
def parseUintLoop : List Char → Nat → Nat × Option Error
  | [], n => (n, none)
  | c :: cs, n =>
    if 48 ≤ c.toNat ∧ c.toNat ≤ 57 then
      if n ≥ 1844674407370955162 then (maxUint64, some Error.ErrRange)
      else if n * 10 + (c.toNat - 48) > maxUint64 then (maxUint64, some Error.ErrRange)
      else parseUintLoop cs (n * 10 + (c.toNat - 48))
    else (0, some Error.ErrSyntax)

/-- Go's `strconv.ParseUint(s, 10, 64)`: the empty text is a syntax error. -/
def ParseUint (cs : List Char) : Nat × Option Error :=
  match cs with
  | [] => (0, some Error.ErrSyntax)
  | _ :: _ => parseUintLoop cs 0

/-- Go's `strconv.Atoi` on the 64-bit `int`, which is `ParseInt(s, 10, 0)` (the short-text
fast path of `Atoi` computes the same result): one optional sign, then `ParseUint`.  A
syntax error yields 0; a range error of `ParseUint`, or a value outside `int`, yields the
nearest bound of `int` with a range error. -/
def Atoi (s : String) : Int × Option Error :=
  match s.data with
  | [] => (0, some Error.ErrSyntax)
  | c :: cs =>
    match ParseUint (if c = '+' ∨ c = '-' then cs else c :: cs) with
    | (_, some Error.ErrSyntax) => (0, some Error.ErrSyntax)
    | (un, _) =>
      if c ≠ '-' ∧ un ≥ 9223372036854775808 then (maxInt, some Error.ErrRange)
      else if c = '-' ∧ un > 9223372036854775808 then (minInt, some Error.ErrRange)
      else (if c = '-' then -(un : Int) else (un : Int), none)

/-! ## Cache keys -/

/-- Key of a post's cached comment count: `fmt.Sprintf("post:%d:commentCount", id)`. -/
def commentCountKey (id : Int) : String := "post:" ++ Itoa id ++ ":commentCount"

/-- Key of a post's cached comment list: `fmt.Sprintf("post:%d:comments", id)`. -/
def commentsKey (id : Int) : String := "post:" ++ Itoa id ++ ":comments"

/-- Key of a cached user: `fmt.Sprintf("user_%v", uid)`. -/
def userKey (uid : Int) : String := "user_" ++ Itoa uid

/-! ## The world: Content Store, Cache Store, serializer, faults, trace -/

/-- The four uses of `encoding/json` in the two functions.  `json.Unmarshal` writes into
its destination while it decodes, so the decoders return what the destination holds
afterwards together with the error. -/
structure Codec where
  marshalUser : User → String × Option Error
  unmarshalUser : String → User × Option Error
  marshalComments : List Comment → String × Option Error
  unmarshalComments : String → List Comment × Option Error

/-- One round trip to a collaborator, with the error it ended in. -/
inductive Event where
  | cacheGet (key : String) (err : Option Error)
  | cacheGetMulti (keys : List String) (err : Option Error)
  | cacheSet (key : String) (value : String) (expiration : Int) (err : Option Error)
  | dbGetUser (uid : Int) (err : Option Error)
  | dbCountComments (postID : Int) (err : Option Error)
  | dbSelectComments (postID : Int) (limit3 : Bool) (err : Option Error)
deriving DecidableEq

/-- Everything outside the two functions. -/
structure World where
  users : List User
  comments : List Comment
  cache : List (String × String)
  json : Codec
  fault : Nat → Bool
  trace : List Event

/-- Record a round trip. -/
def World.record (w : World) (e : Event) : World := { w with trace := w.trace ++ [e] }

/-- Whether the round trip that is about to start fails. -/
def World.failing (w : World) : Bool := w.fault w.trace.length

/-- The call `memcacheClient.Get`: the stored bytes, `ErrCacheMiss` when the key is absent,
another error when the cache cannot be reached. -/
def memcacheGet (key : String) (w : World) : Except Error String × World :=
  if w.failing then
    (Except.error Error.ErrCacheUnavailable,
      w.record (Event.cacheGet key (some Error.ErrCacheUnavailable)))
  else
    match w.cache.lookup key with
    | some v => (Except.ok v, w.record (Event.cacheGet key none))
    | none => (Except.error Error.ErrCacheMiss,
        w.record (Event.cacheGet key (some Error.ErrCacheMiss)))

/-- The map `GetMulti` returns: one entry for each requested key that is present. -/
def multiItems (cache : List (String × String)) : List String → List (String × String)
  | [] => []
  | k :: ks =>
    match cache.lookup k with
    | some v => (k, v) :: multiItems cache ks
    | none => multiItems cache ks

/-- The call `memcacheClient.GetMulti`: the entries of the requested keys that are present,
or an error when the cache cannot be reached. -/
def memcacheGetMulti (keys : List String) (w : World) :
    Except Error (List (String × String)) × World :=
  if w.failing then
    (Except.error Error.ErrCacheUnavailable,
      w.record (Event.cacheGetMulti keys (some Error.ErrCacheUnavailable)))
  else
    (Except.ok (multiItems w.cache keys), w.record (Event.cacheGetMulti keys none))

/-- The call `memcacheClient.Set`: on success the key holds the new bytes (`Expiration` 0
means the entry does not expire); on failure the cache is left as it was. -/
def memcacheSet (key value : String) (expiration : Int) (w : World) : Option Error × World :=
  if w.failing then
    (some Error.ErrCacheUnavailable,
      w.record (Event.cacheSet key value expiration (some Error.ErrCacheUnavailable)))
  else
    (none, { w.record (Event.cacheSet key value expiration none) with
              cache := (key, value) :: w.cache.filter (fun kv => kv.1 ≠ key) })

/-- The query `SELECT * FROM users WHERE id = ?` read with `db.Get`. -/
def dbGetUser (uid : Int) (w : World) : Except Error User × World :=
  if w.failing then
    (Except.error Error.ErrStoreUnavailable,
      w.record (Event.dbGetUser uid (some Error.ErrStoreUnavailable)))
  else
    match w.users.find? (fun u => u.ID = uid) with
    | some u => (Except.ok u, w.record (Event.dbGetUser uid none))
    | none => (Except.error Error.ErrNoRows,
        w.record (Event.dbGetUser uid (some Error.ErrNoRows)))

/-- The query `SELECT COUNT(*) FROM comments WHERE post_id = ?` read with `db.Get`. -/
def dbCountComments (postID : Int) (w : World) : Except Error Int × World :=
  if w.failing then
    (Except.error Error.ErrStoreUnavailable,
      w.record (Event.dbCountComments postID (some Error.ErrStoreUnavailable)))
  else
    (Except.ok ((w.comments.filter (fun c => c.PostID = postID)).length : Int),
      w.record (Event.dbCountComments postID none))

/-- One row of the comments query.  Only `c.comment`, `c.created_at` and `u.account_name`
are selected, so every other field of the scanned `Comment` keeps its zero value. -/
def commentRow (c : Comment) (u : User) : Comment :=
  { ID := 0, PostID := 0, UserID := 0, Comment := c.Comment, CreatedAt := c.CreatedAt,
    User := { User.zero with AccountName := u.AccountName } }

/-- The part `FROM comments c JOIN users u ON c.user_id = u.id WHERE post_id = ?`. -/
def joinedComments (comments : List Comment) (users : List User) (postID : Int) :
    List Comment :=
  (comments.filter (fun c => c.PostID = postID)).flatMap
    (fun c => (users.filter (fun u => c.UserID = u.ID)).map (commentRow c))

/-- The part `ORDER BY created_at DESC` (rows of equal time stay in table order). -/
def orderByCreatedAtDesc (rows : List Comment) : List Comment :=
  rows.insertionSort (fun a b => a.CreatedAt ≥ b.CreatedAt)

/-- The comments query of `makePosts`, with ` LIMIT 3` appended when `limit3` is set. -/
def commentsQuery (comments : List Comment) (users : List User) (postID : Int)
    (limit3 : Bool) : List Comment :=
  let rows := orderByCreatedAtDesc (joinedComments comments users postID)
  if limit3 then rows.take 3 else rows

/-- The comments query read with `db.Select`: the destination slice receives the rows. -/
def dbSelectComments (postID : Int) (limit3 : Bool) (w : World) :
    Except Error (List Comment) × World :=
  if w.failing then
    (Except.error Error.ErrStoreUnavailable,
      w.record (Event.dbSelectComments postID limit3 (some Error.ErrStoreUnavailable)))
  else
    (Except.ok (commentsQuery w.comments w.users postID limit3),
      w.record (Event.dbSelectComments postID limit3 none))

/-! ## `getSessionUser` and `isLogin` (`app.go` lines 172-228, 391-393) -/

/-- The function `isLogin`: a user counts as logged in when its ID is not 0. -/
def isLogin (u : User) : Bool := u.ID != 0

/-- The function `getSessionUser`.  The argument is `session.Values["user_id"]`: `none` when
the key is absent or nil.  The result is the returned user and the world after the call. -/
def getSessionUser (session : Option Int) (w : World) : User × World :=
  match session with
  | none => (User.zero, w)
  | some uid =>
    let cacheKey := userKey uid
    match memcacheGet cacheKey w with
    | (Except.error err, w1) =>
      if err ≠ Error.ErrCacheMiss then (User.zero, w1)
      else
        match dbGetUser uid w1 with
        | (Except.error _, w2) => (User.zero, w2)
        | (Except.ok u, w2) =>
          match w2.json.marshalUser u with
          | (_, some _) => (User.zero, w2)
          | (serializedUser, none) =>
            (u, (memcacheSet cacheKey serializedUser 300 w2).2)
    | (Except.ok value, w1) =>
      match w1.json.unmarshalUser value with
      | (_, some _) => (User.zero, w1)
      | (u, none) => (u, w1)

/-! ## `makePosts` (`app.go` lines 243-309) -/

/-- The key list built by the first loop: two keys for each post, in input order. -/
def makePostsKeys : List Post → List String
  | [] => []
  | p :: rest => commentCountKey p.ID :: commentsKey p.ID :: makePostsKeys rest

/-- Lines 260-271: the comment count of one post.  On a hit the error of `strconv.Atoi` is
dropped (`p.CommentCount, _ = ...`). -/
def resolveCommentCount (items : List (String × String)) (p : Post) (w : World) :
    (Post × Option Error) × World :=
  match items.lookup (commentCountKey p.ID) with
  | some value => (({ p with CommentCount := (Atoi value).1 }, none), w)
  | none =>
    match dbCountComments p.ID w with
    | (Except.error err, w1) => ((p, some err), w1)
    | (Except.ok n, w1) =>
      (({ p with CommentCount := n }, none),
        (memcacheSet (commentCountKey p.ID) (Itoa n) 0 w1).2)

/-- Lines 273-295: the comment list of one post, before the reversal. -/
def resolveComments (items : List (String × String)) (allComments : Bool) (p : Post)
    (w : World) : (Post × Option Error) × World :=
  match items.lookup (commentsKey p.ID) with
  | some value =>
    match w.json.unmarshalComments value with
    | (cs, some err) => (({ p with Comments := cs }, some err), w)
    | (cs, none) => (({ p with Comments := cs }, none), w)
  | none =>
    match dbSelectComments p.ID (!allComments) w with
    | (Except.error err, w1) => ((p, some err), w1)
    | (Except.ok rows, w1) =>
      match w1.json.marshalComments rows with
      | (_, some err) => (({ p with Comments := rows }, some err), w1)
      | (commentsBytes, none) =>
        (({ p with Comments := rows }, none),
          (memcacheSet (commentsKey p.ID) commentsBytes 0 w1).2)

/-- Lines 297-302: the comments are reversed when, and only when, the comments key was
absent from the batch result. -/
def reverseOnMiss (items : List (String × String)) (p : Post) : Post :=
  match items.lookup (commentsKey p.ID) with
  | some _ => p
  | none => { p with Comments := p.Comments.reverse }

/-- The second loop of `makePosts`; `posts` is the slice built so far.  Every error return
is `return nil, err`. -/
def makePostsLoop (items : List (String × String)) (csrfToken : String)
    (allComments : Bool) : List Post → List Post → World → (List Post × Option Error) × World
  | [], posts, w => ((posts, none), w)
  | p :: rest, posts, w =>
    match resolveCommentCount items p w with
    | ((_, some err), w1) => (([], some err), w1)
    | ((p1, none), w1) =>
      match resolveComments items allComments p1 w1 with
      | ((_, some err), w2) => (([], some err), w2)
      | ((p2, none), w2) =>
        let p3 := reverseOnMiss items p2
        makePostsLoop items csrfToken allComments rest
          (posts ++ [{ p3 with CSRFToken := csrfToken }]) w2

/-- The function `makePosts`: the returned slice and error, and the world after the call. -/
def makePosts (results : List Post) (csrfToken : String) (allComments : Bool) (w : World) :
    (List Post × Option Error) × World :=
  match memcacheGetMulti (makePostsKeys results) w with
  | (Except.error err, w1) => (([], some err), w1)
  | (Except.ok items, w1) => makePostsLoop items csrfToken allComments results [] w1

/-! ## A concrete serializer and concrete worlds, for evaluation -/

/-- Cut a text at every occurrence of `sep`. -/
def splitChars (sep : Char) : List Char → List (List Char)
  | [] => [[]]
  | c :: cs =>
    if c = sep then [] :: splitChars sep cs
    else
      match splitChars sep cs with
      | [] => [[c]]
      | f :: fs => (c :: f) :: fs

/-- Join texts, writing `sep` between them. -/
def joinChars (sep : Char) : List String → List Char
  | [] => []
  | [a] => a.data
  | a :: b :: rest => a.data ++ sep :: joinChars sep (b :: rest)

/-- The six fields of a user, in declaration order. -/
def userFields (u : User) : List String :=
  [Itoa u.ID, u.AccountName, u.Passhash, Itoa u.Authority, Itoa u.DelFlg, Itoa u.CreatedAt]

/-- Read a user from its six fields.  When the record is short or a number is malformed the
fields read so far are kept and an error is reported. -/
def decodeUser (fields : List (List Char)) : User × Option Error :=
  match fields with
  | [a, b, c, d, e, f] =>
    match Atoi ⟨a⟩, Atoi ⟨d⟩, Atoi ⟨e⟩, Atoi ⟨f⟩ with
    | (id, none), (au, none), (del, none), (t, none) => (⟨id, ⟨b⟩, ⟨c⟩, au, del, t⟩, none)
    | (id, _), _, _, _ => (⟨id, ⟨b⟩, ⟨c⟩, 0, 0, 0⟩, some Error.ErrJSON)
  | [a, b, c] => (⟨(Atoi ⟨a⟩).1, ⟨b⟩, ⟨c⟩, 0, 0, 0⟩, some Error.ErrJSON)
  | a :: _ => ({ User.zero with ID := (Atoi ⟨a⟩).1 }, some Error.ErrJSON)
  | [] => (User.zero, some Error.ErrJSON)

/-- The eleven fields of a comment: its own five, then those of the embedded user. -/
def commentFields (c : Comment) : List String :=
  [Itoa c.ID, Itoa c.PostID, Itoa c.UserID, c.Comment, Itoa c.CreatedAt] ++ userFields c.User

/-- Read a comment from its eleven fields. -/
def decodeComment (fields : List (List Char)) : Option Comment :=
  match fields with
  | a :: b :: c :: d :: e :: rest =>
    match Atoi ⟨a⟩, Atoi ⟨b⟩, Atoi ⟨c⟩, Atoi ⟨e⟩, decodeUser rest with
    | (id, none), (pid, none), (uid, none), (t, none), (u, none) =>
      some ⟨id, pid, uid, ⟨d⟩, t, u⟩
    | _, _, _, _, _ => none
  | _ => none

/-- Read comment records one after the other; stop with what was read at the first record
that is malformed. -/
def decodeComments : List (List Char) → List Comment × Option Error
  | [] => ([], none)
  | r :: rs =>
    match decodeComment (splitChars '|' r) with
    | none => ([], some Error.ErrJSON)
    | some c =>
      match decodeComments rs with
      | (cs, err) => (c :: cs, err)

/-- A serializer that never fails to encode: fields are separated by `|`, and every comment
record is closed by `;`. -/
def sampleCodec : Codec where
  marshalUser := fun u => (String.mk (joinChars '|' (userFields u)), none)
  unmarshalUser := fun s => decodeUser (splitChars '|' s.data)
  marshalComments := fun cs =>
    (String.mk (cs.flatMap (fun c => joinChars '|' (commentFields c) ++ [';'])), none)
  unmarshalComments := fun s => decodeComments (splitChars ';' s.data).dropLast

/-- A serializer that cannot encode anything. -/
def brokenCodec : Codec where
  marshalUser := fun _ => ("", some Error.ErrJSON)
  unmarshalUser := fun _ => (User.zero, some Error.ErrJSON)
  marshalComments := fun _ => ("", some Error.ErrJSON)
  unmarshalComments := fun _ => ([], some Error.ErrJSON)

/-- Two users. -/
def sampleUsers : List User :=
  [⟨1, "alice", "h1", 0, 0, 1000⟩, ⟨2, "bob", "h2", 0, 0, 1001⟩]

/-- Post 42 has four comments c1..c4 written at the times 10 < 20 < 30 < 40 (stored out of
order); post 7 has none. -/
def sampleComments : List Comment :=
  [⟨3, 42, 1, "c3", 30, User.zero⟩, ⟨1, 42, 1, "c1", 10, User.zero⟩,
   ⟨4, 42, 2, "c4", 40, User.zero⟩, ⟨2, 42, 2, "c2", 20, User.zero⟩]

/-- A world with an empty cache in which nothing fails. -/
def sampleWorld : World where
  users := sampleUsers
  comments := sampleComments
  cache := []
  json := sampleCodec
  fault := fun _ => false
  trace := []

/-- A post row as the posts queries of the handlers produce it. -/
def postRow (id userID : Int) (body : String) (account : String) : Post :=
  { ID := id, UserID := userID, Imgdata := "", Body := body, Mime := "image/png",
    CreatedAt := 500, CommentCount := 0, Comments := [],
    User := { User.zero with AccountName := account }, CSRFToken := "" }

/-- The row of post 42. -/
def post42 : Post := postRow 42 1 "hello" "alice"

/-- The view of a stored comment that the comments query returns. -/
def viewOf (text : String) (at_ : Int) (account : String) : Comment :=
  ⟨0, 0, 0, text, at_, { User.zero with AccountName := account }⟩

/-- Scenario A of the specification: the item expected for post 42. -/
def scenarioAItem : Post :=
  { post42 with
    CommentCount := 4
    CSRFToken := "tok"
    Comments := [viewOf "c2" 20 "bob", viewOf "c3" 30 "alice", viewOf "c4" 40 "bob"] }

/-- The row of post 7, which has no comments. -/
def post7 : Post := postRow 7 2 "quiet" "bob"

/-- The sample world in which exactly the sixth round trip fails: with the rows of posts 7
and 42 that is the count query of post 42, after post 7 has been enriched. -/
def sixthFails : World := { sampleWorld with fault := fun n => n == 5 }

/-- The sample world in which the first round trip fails. -/
def firstFails : World := { sampleWorld with fault := fun n => n == 0 }

/-- The sample world whose cache holds, as comment count of post 42, digits that leave
`uint64` followed by a letter. -/
def overflowCountWorld : World :=
  { sampleWorld with cache := [("post:42:commentCount", "99999999999999999999x")] }

/-- Post 42 has the four comments c1..c4 at the times 10 < 20 < 30 < 40, and the two newest
were written by user 99, for whom the users table has no row. -/
def orphanComments : List Comment :=
  [⟨1, 42, 1, "c1", 10, User.zero⟩, ⟨2, 42, 2, "c2", 20, User.zero⟩,
   ⟨3, 42, 99, "c3", 30, User.zero⟩, ⟨4, 42, 99, "c4", 40, User.zero⟩]

/-- The sample world with the comments of `orphanComments`. -/
def orphanWorld : World := { sampleWorld with comments := orphanComments }

/-- The sample world whose cache holds a comment count for post 42 that is not a number. -/
def badCountWorld : World := { sampleWorld with cache := [("post:42:commentCount", "abc")] }

/-- The comments of scenario A in descending order of time, as the comments query returns
them. -/
def scenarioADescending : List Comment :=
  [viewOf "c4" 40 "bob", viewOf "c3" 30 "alice", viewOf "c2" 20 "bob"]

/-- The sample world in which exactly the second round trip fails. -/
def secondFails : World := { sampleWorld with fault := fun n => n == 1 }

/-- The sample world in which exactly the third round trip fails. -/
def thirdFails : World := { sampleWorld with fault := fun n => n == 2 }

/-- The sample world whose cache holds, for user 1, a record that breaks off after three
fields: decoding it fills in the ID 7 and two texts and then reports an error. -/
def truncatedUserWorld : World := { sampleWorld with cache := [("user_1", "7|alice|x")] }

/-- The row of user 1. -/
def alice : User := ⟨1, "alice", "h1", 0, 0, 1000⟩

/-! ## What a run attaches and what it does, for the statements below -/

/-- Whether a round trip reads the cache. -/
def Event.isCacheRead : Event → Bool
  | Event.cacheGet _ _ => true
  | Event.cacheGetMulti _ _ => true
  | _ => false

/-- Whether a round trip writes the cache. -/
def Event.isCacheWrite : Event → Bool
  | Event.cacheSet _ _ _ _ => true
  | _ => false

/-- Whether a round trip queries the Content Store. -/
def Event.isStoreQuery : Event → Bool
  | Event.dbGetUser _ _ => true
  | Event.dbCountComments _ _ => true
  | Event.dbSelectComments _ _ _ => true
  | _ => false

/-- The error a round trip ended in. -/
def Event.err : Event → Option Error
  | Event.cacheGet _ e => e
  | Event.cacheGetMulti _ e => e
  | Event.cacheSet _ _ _ e => e
  | Event.dbGetUser _ e => e
  | Event.dbCountComments _ e => e
  | Event.dbSelectComments _ _ e => e

/-- A Content Store query that failed. -/
def Event.isFailedStoreQuery (e : Event) : Bool := e.isStoreQuery && e.err.isSome

/-- The comment count a successful run gives a post, read off the batch result `items`
and the comments table. -/
def countOf (items : List (String × String)) (comments : List Comment) (p : Post) : Int :=
  match items.lookup (commentCountKey p.ID) with
  | some value => (Atoi value).1
  | none => ((comments.filter (fun c => c.PostID = p.ID)).length : Int)

/-- The comment list a successful run gives a post. -/
def commentsOf (items : List (String × String)) (json : Codec) (comments : List Comment)
    (users : List User) (allComments : Bool) (p : Post) : List Comment :=
  match items.lookup (commentsKey p.ID) with
  | some value => (json.unmarshalComments value).1
  | none => (commentsQuery comments users p.ID (!allComments)).reverse

/-- The feed item a successful run makes of a post. -/
def feedItem (items : List (String × String)) (json : Codec) (comments : List Comment)
    (users : List User) (csrfToken : String) (allComments : Bool) (p : Post) : Post :=
  { p with
    CommentCount := countOf items comments p
    Comments := commentsOf items json comments users allComments p
    CSRFToken := csrfToken }

/-- The row the comments query makes of a stored comment: joined with the first user row
that carries the comment's user id. -/
def rowOf (users : List User) (c : Comment) : Comment :=
  commentRow c (((users.filter (fun u => c.UserID = u.ID)).head?).getD User.zero)

/-- The store queries a successful run issues for one post: the count query when the count
key is absent from the batch result `items`, then the comments query when the comments key
is absent. -/
def storeQueriesOf (items : List (String × String)) (allComments : Bool) (p : Post) :
    List Event :=
  (match items.lookup (commentCountKey p.ID) with
    | some _ => []
    | none => [Event.dbCountComments p.ID none]) ++
  (match items.lookup (commentsKey p.ID) with
    | some _ => []
    | none => [Event.dbSelectComments p.ID (!allComments) none])

/-- Every identity entry of the cache is the serialization of the row the store holds for
that user id. -/
def identityCacheSound (w : World) : Prop :=
  ∀ (uid : Int) (value : String), w.cache.lookup (userKey uid) = some value →
    ∃ u, w.users.find? (fun r => r.ID = uid) = some u ∧ u.ID = uid ∧
      w.json.marshalUser u = (value, none)

/-- The world after resolving a sequence of sessions, one call of `getSessionUser` each. -/
def resolveAll : List (Option Int) → World → World
  | [], w => w
  | session :: rest, w => resolveAll rest (getSessionUser session w).2

/-- The world `w2` continues `w1`: same tables, serializer and fault schedule, and the trace
grew by `evs`. -/
structure Continues (w1 w2 : World) (evs : List Event) : Prop where
  users : w2.users = w1.users
  comments : w2.comments = w1.comments
  json : w2.json = w1.json
  fault : w2.fault = w1.fault
  trace : w2.trace = w1.trace ++ evs

/-! ## Decimal rendering and parsing -/

theorem digitChar_toNat (d : Nat) (h : d < 10) : (digitChar d).toNat = 48 + d := by
  interval_cases d <;> decide

theorem formatDigits_acc (fuel n : Nat) (acc : List Char) :
    formatDigits fuel n acc = formatDigits fuel n [] ++ acc := by
  induction fuel generalizing n acc with
  | zero => simp [formatDigits]
  | succ fuel ih =>
    unfold formatDigits
    by_cases h : n < 10
    · simp [h]
    · simp only [h, if_false]
      rw [ih (n / 10) (digitChar (n % 10) :: acc), ih (n / 10) [digitChar (n % 10)]]
      simp

theorem formatDigits_fuel (f g n : Nat) (acc : List Char) (hf : n < f) (hg : n < g) :
    formatDigits f n acc = formatDigits g n acc := by
  induction f generalizing g n acc with
  | zero => omega
  | succ f ih =>
    cases g with
    | zero => omega
    | succ g =>
      unfold formatDigits
      by_cases h : n < 10
      · simp [h]
      · simp only [h, if_false]
        exact ih g (n / 10) _ (by omega) (by omega)

theorem formatNat_small (n : Nat) (h : n < 10) : formatNat n = [digitChar n] := by
  simp [formatNat, formatDigits, h]

theorem formatNat_step (n : Nat) (h : 10 ≤ n) :
    formatNat n = formatNat (n / 10) ++ [digitChar (n % 10)] := by
  have h10 : ¬ n < 10 := by omega
  unfold formatNat
  rw [formatDigits]
  simp only [h10, if_false]
  rw [formatDigits_acc, formatDigits_fuel n (n / 10 + 1) (n / 10) [] (by omega) (by omega)]

theorem parseDigits_append (xs : List Char) (c : Char) (a : Nat) :
    parseDigits (xs ++ [c]) a =
      (parseDigits xs a).bind (fun v =>
        if 48 ≤ c.toNat ∧ c.toNat ≤ 57 then some (v * 10 + (c.toNat - 48)) else none) := by
  induction xs generalizing a with
  | nil => simp [parseDigits]
  | cons x xs ih =>
    simp only [List.cons_append, parseDigits]
    by_cases h : 48 ≤ x.toNat ∧ x.toNat ≤ 57
    · simp only [h, and_self, if_true]; exact ih _
    · simp [h]

theorem parseDigits_formatNat (n : Nat) : parseDigits (formatNat n) 0 = some n := by
  induction n using Nat.strong_induction_on with
  | _ n ih =>
    by_cases h : n < 10
    · rw [formatNat_small n h]
      simp [parseDigits, digitChar_toNat n h]
      omega
    · rw [formatNat_step n (by omega), parseDigits_append, ih (n / 10) (by omega)]
      have hd := digitChar_toNat (n % 10) (Nat.mod_lt _ (by decide))
      simp [hd]
      omega

theorem formatNat_ne_nil (n : Nat) : formatNat n ≠ [] := by
  by_cases h : n < 10
  · simp [formatNat_small n h]
  · simp [formatNat_step n (by omega)]

theorem formatNat_head (n : Nat) :
    ∃ c cs, formatNat n = c :: cs ∧ 48 ≤ c.toNat ∧ c.toNat ≤ 57 := by
  have hp := parseDigits_formatNat n
  cases hf : formatNat n with
  | nil => exact absurd hf (formatNat_ne_nil n)
  | cons c cs =>
    refine ⟨c, cs, rfl, ?_⟩
    rw [hf] at hp
    by_contra hc
    simp [parseDigits, hc] at hp

theorem parseDigits_ge (cs : List Char) (a v : Nat) (h : parseDigits cs a = some v) :
    a ≤ v := by
  induction cs generalizing a with
  | nil => simp only [parseDigits] at h; exact le_of_eq (Option.some.inj h)
  | cons c cs ih =>
    by_cases hc : 48 ≤ c.toNat ∧ c.toNat ≤ 57
    · simp only [parseDigits, hc, and_self, if_true] at h
      have := ih _ h
      omega
    · simp [parseDigits, hc] at h

/-- On a run of digits whose value fits `uint64`, the loop of `ParseUint` reads that value. -/
theorem parseUintLoop_of_parseDigits (cs : List Char) (a v : Nat)
    (h : parseDigits cs a = some v) (hv : v ≤ maxUint64) :
    parseUintLoop cs a = (v, none) := by
  induction cs generalizing a with
  | nil => simp only [parseDigits] at h; simp [parseUintLoop, Option.some.inj h]
  | cons c cs ih =>
    by_cases hc : 48 ≤ c.toNat ∧ c.toNat ≤ 57
    · simp only [parseDigits, hc, and_self, if_true] at h
      have hge := parseDigits_ge cs _ v h
      have h1 : ¬ a ≥ 1844674407370955162 := by
        simp only [maxUint64] at hv; omega
      have h2 : ¬ a * 10 + (c.toNat - 48) > maxUint64 := by omega
      simp only [parseUintLoop, hc, and_self, if_true, h1, h2, if_false]
      exact ih _ h
    · simp [parseDigits, hc] at h

theorem ParseUint_formatNat (n : Nat) (hn : n ≤ maxUint64) :
    ParseUint (formatNat n) = (n, none) := by
  obtain ⟨c, cs, hf, _⟩ := formatNat_head n
  have hp := parseDigits_formatNat n
  rw [hf] at hp ⊢
  simp only [ParseUint]
  exact parseUintLoop_of_parseDigits (c :: cs) 0 n hp hn

/-- Parsing the rendering of an `int` gives the `int` back, without error. -/
theorem Atoi_Itoa (n : Int) (hlo : minInt ≤ n) (hhi : n ≤ maxInt) : Atoi (Itoa n) = (n, none) := by
  cases n with
  | ofNat m =>
    obtain ⟨c, cs, hf, hc1, hc2⟩ := formatNat_head m
    have hm : ¬ m ≥ 9223372036854775808 := by
      simp only [maxInt, Int.ofNat_eq_coe] at hhi; omega
    have hp := ParseUint_formatNat m (by simp only [maxUint64]; omega)
    have hminus : c ≠ '-' := by
      intro h; rw [h] at hc1; revert hc1; decide
    have hplus : c ≠ '+' := by
      intro h; rw [h] at hc1; revert hc1; decide
    rw [hf] at hp
    simp [Itoa, Atoi, hf, hminus, hplus, hp, hm]
  | negSucc m =>
    have hm : ¬ m + 1 > 9223372036854775808 := by
      simp only [minInt, Int.negSucc_eq] at hlo; omega
    have hp := ParseUint_formatNat (m + 1) (by simp only [maxUint64]; omega)
    simp only [Itoa, Atoi, or_true, if_true, hp, ne_eq, not_true_eq_false, false_and, hm,
      true_and, if_false, and_false]
    rfl

/-! ## The collaborators: what one round trip changes -/

theorem Continues.refl (w : World) : Continues w w [] :=
  ⟨rfl, rfl, rfl, rfl, by simp⟩

theorem Continues.trans {w1 w2 w3 : World} {e1 e2 : List Event}
    (h1 : Continues w1 w2 e1) (h2 : Continues w2 w3 e2) : Continues w1 w3 (e1 ++ e2) :=
  ⟨h2.users.trans h1.users, h2.comments.trans h1.comments, h2.json.trans h1.json,
    h2.fault.trans h1.fault, by rw [h2.trace, h1.trace, List.append_assoc]⟩

theorem record_continues (w : World) (e : Event) : Continues w (w.record e) [e] :=
  ⟨rfl, rfl, rfl, rfl, rfl⟩

theorem memcacheSet_continues (key value : String) (expiration : Int) (w : World) :
    ∃ err, Continues w (memcacheSet key value expiration w).2
      [Event.cacheSet key value expiration err] := by
  unfold memcacheSet
  by_cases h : w.failing = true
  · exact ⟨_, by simpa [h] using record_continues w _⟩
  · refine ⟨none, ?_⟩
    simp only [h, Bool.false_eq_true, if_false]
    exact ⟨rfl, rfl, rfl, rfl, rfl⟩

theorem dbCountComments_cases (postID : Int) (w : World) :
    dbCountComments postID w =
        (Except.error Error.ErrStoreUnavailable,
          w.record (Event.dbCountComments postID (some Error.ErrStoreUnavailable))) ∨
    dbCountComments postID w =
        (Except.ok ((w.comments.filter (fun c => c.PostID = postID)).length : Int),
          w.record (Event.dbCountComments postID none)) := by
  unfold dbCountComments
  by_cases h : w.failing = true
  · left; simp [h]
  · right; simp [h]

theorem dbSelectComments_cases (postID : Int) (limit3 : Bool) (w : World) :
    dbSelectComments postID limit3 w =
        (Except.error Error.ErrStoreUnavailable,
          w.record (Event.dbSelectComments postID limit3 (some Error.ErrStoreUnavailable))) ∨
    dbSelectComments postID limit3 w =
        (Except.ok (commentsQuery w.comments w.users postID limit3),
          w.record (Event.dbSelectComments postID limit3 none)) := by
  unfold dbSelectComments
  by_cases h : w.failing = true
  · left; simp [h]
  · right; simp [h]

/-- The batch result holds, for a requested key, what the cache holds, and nothing for a key
that was not requested. -/
theorem multiItems_lookup (cache : List (String × String)) (keys : List String) (k : String) :
    (multiItems cache keys).lookup k = if k ∈ keys then cache.lookup k else none := by
  induction keys with
  | nil => simp [multiItems]
  | cons k0 ks ih =>
    by_cases hk : k = k0
    · subst hk
      cases hl : cache.lookup k with
      | some v => simp [multiItems, hl, List.lookup]
      | none =>
        simp only [multiItems, hl, ih, List.mem_cons, true_or, if_true]
        split <;> rfl
    · have hne : (k == k0) = false := by simpa using hk
      cases hl : cache.lookup k0 with
      | some v => simp [multiItems, hl, List.lookup, hne, ih, hk]
      | none => simp [multiItems, hl, ih, hk]

/-- Both keys of every input post are among the requested keys. -/
theorem makePostsKeys_mem (results : List Post) (p : Post) (hp : p ∈ results) :
    commentCountKey p.ID ∈ makePostsKeys results ∧ commentsKey p.ID ∈ makePostsKeys results := by
  induction results with
  | nil => cases hp
  | cons q rest ih =>
    rcases List.mem_cons.1 hp with rfl | h
    · simp [makePostsKeys]
    · have := ih h
      simp [makePostsKeys, this.1, this.2]

/-! ## One turn of the second loop -/

/-- What lines 260-271 do: the world continues, no cache read is issued, and when no error
comes back the count is `countOf` and no store query failed. -/
theorem resolveCommentCount_spec (items : List (String × String)) (p : Post) (w : World) :
    ∃ evs, Continues w (resolveCommentCount items p w).2 evs ∧
      (∀ e ∈ evs, e.isCacheRead = false) ∧
      ((resolveCommentCount items p w).1.2 = none →
        (resolveCommentCount items p w).1.1 =
            { p with CommentCount := countOf items w.comments p } ∧
          ∀ e ∈ evs, e.isFailedStoreQuery = false) := by
  unfold resolveCommentCount countOf
  cases hl : items.lookup (commentCountKey p.ID) with
  | some value => exact ⟨[], Continues.refl w, by simp, by simp⟩
  | none =>
    rcases dbCountComments_cases p.ID w with h | h
    · refine ⟨_, by simpa [h] using record_continues w _, ?_, ?_⟩
      · simp [Event.isCacheRead]
      · simp [h]
    · obtain ⟨err, hc⟩ := memcacheSet_continues (commentCountKey p.ID)
        (Itoa ((w.comments.filter (fun c => c.PostID = p.ID)).length : Int)) 0
        (w.record (Event.dbCountComments p.ID none))
      refine ⟨_, by simpa [h] using (record_continues w _).trans hc, ?_, ?_⟩
      · simp [Event.isCacheRead]
      · simp [h, Event.isFailedStoreQuery, Event.isStoreQuery, Event.err]

/-- What lines 273-295 do, before the reversal. -/
theorem resolveComments_spec (items : List (String × String)) (allComments : Bool)
    (p : Post) (w : World) :
    ∃ evs, Continues w (resolveComments items allComments p w).2 evs ∧
      (∀ e ∈ evs, e.isCacheRead = false) ∧
      ((resolveComments items allComments p w).1.2 = none →
        (resolveComments items allComments p w).1.1 =
            { p with Comments :=
                match items.lookup (commentsKey p.ID) with
                | some value => (w.json.unmarshalComments value).1
                | none => commentsQuery w.comments w.users p.ID (!allComments) } ∧
          ∀ e ∈ evs, e.isFailedStoreQuery = false) := by
  unfold resolveComments
  cases hl : items.lookup (commentsKey p.ID) with
  | some value =>
    refine ⟨[], ?_, by simp, ?_⟩
    · rcases hu : w.json.unmarshalComments value with ⟨cs, _ | err⟩ <;>
        simpa [hu] using Continues.refl w
    · rcases hu : w.json.unmarshalComments value with ⟨cs, _ | err⟩ <;> simp [hu]
  | none =>
    rcases dbSelectComments_cases p.ID (!allComments) w with h | h
    · refine ⟨_, by simpa [h] using record_continues w _, ?_, ?_⟩
      · simp [Event.isCacheRead]
      · simp [h]
    · rcases hm : (w.record (Event.dbSelectComments p.ID (!allComments) none)).json.marshalComments
          (commentsQuery w.comments w.users p.ID (!allComments)) with ⟨bytes, _ | err⟩
      · obtain ⟨err, hc⟩ := memcacheSet_continues (commentsKey p.ID) bytes 0
          (w.record (Event.dbSelectComments p.ID (!allComments) none))
        refine ⟨_, by simpa [h, hm] using (record_continues w _).trans hc, ?_, ?_⟩
        · simp [Event.isCacheRead]
        · simp [h, hm, Event.isFailedStoreQuery, Event.isStoreQuery, Event.err]
      · refine ⟨_, by simpa [h, hm] using record_continues w _, ?_, ?_⟩
        · simp [Event.isCacheRead]
        · simp [h, hm]

/-- Lines 297-305 applied to the outcome of the two lookups give `feedItem`. -/
theorem feedItem_eq (items : List (String × String)) (json : Codec) (comments : List Comment)
    (users : List User) (csrfToken : String) (allComments : Bool) (p : Post) :
    { reverseOnMiss items
        { ({ p with CommentCount := countOf items comments p } : Post) with
          Comments :=
            match items.lookup (commentsKey p.ID) with
            | some value => (json.unmarshalComments value).1
            | none => commentsQuery comments users p.ID (!allComments) } with
      CSRFToken := csrfToken } = feedItem items json comments users csrfToken allComments p := by
  unfold reverseOnMiss feedItem commentsOf
  cases hl : items.lookup (commentsKey p.ID) <;> simp [hl]

/-! ## The second loop as a whole -/

/-- The second loop: the world continues, no cache read is issued, an error comes with no
posts, and without error the result is the slice built so far followed by the feed items of
the remaining rows, no store query having failed. -/
theorem makePostsLoop_spec (items : List (String × String)) (csrfToken : String)
    (allComments : Bool) : ∀ (rest posts : List Post) (w : World),
    ∃ evs, Continues w (makePostsLoop items csrfToken allComments rest posts w).2 evs ∧
      (∀ e ∈ evs, e.isCacheRead = false) ∧
      ((makePostsLoop items csrfToken allComments rest posts w).1.2 ≠ none →
        (makePostsLoop items csrfToken allComments rest posts w).1.1 = []) ∧
      ((makePostsLoop items csrfToken allComments rest posts w).1.2 = none →
        (makePostsLoop items csrfToken allComments rest posts w).1.1 =
            posts ++ rest.map (feedItem items w.json w.comments w.users csrfToken allComments) ∧
          ∀ e ∈ evs, e.isFailedStoreQuery = false) := by
  intro rest
  induction rest with
  | nil =>
    intro posts w
    exact ⟨[], by simpa [makePostsLoop] using Continues.refl w, by simp,
      by simp [makePostsLoop], by simp [makePostsLoop]⟩
  | cons p rest ih =>
    intro posts w
    obtain ⟨ev1, hc1, hr1, hok1⟩ := resolveCommentCount_spec items p w
    rcases h1 : resolveCommentCount items p w with ⟨⟨p1, _ | err1⟩, w1⟩
    · rw [h1] at hc1 hok1
      obtain ⟨hp1, hq1⟩ := hok1 rfl
      simp only at hp1 hc1
      obtain ⟨ev2, hc2, hr2, hok2⟩ := resolveComments_spec items allComments p1 w1
      rcases h2 : resolveComments items allComments p1 w1 with ⟨⟨p2, _ | err2⟩, w2⟩
      · rw [h2] at hc2 hok2
        obtain ⟨hp2, hq2⟩ := hok2 rfl
        simp only at hp2 hc2
        obtain ⟨ev3, hc3, hr3, herr3, hok3⟩ :=
          ih (posts ++ [{ reverseOnMiss items p2 with CSRFToken := csrfToken }]) w2
        have hitem : ({ reverseOnMiss items p2 with CSRFToken := csrfToken } : Post) =
            feedItem items w.json w.comments w.users csrfToken allComments p := by
          rw [hp2, hp1, hc1.json, hc1.comments, hc1.users]
          exact feedItem_eq items w.json w.comments w.users csrfToken allComments p
        have hstep : makePostsLoop items csrfToken allComments (p :: rest) posts w =
            makePostsLoop items csrfToken allComments rest
              (posts ++ [{ reverseOnMiss items p2 with CSRFToken := csrfToken }]) w2 := by
          rw [makePostsLoop]; simp only [h1, h2]
        rw [hstep]
        refine ⟨ev1 ++ ev2 ++ ev3, (hc1.trans hc2).trans hc3, ?_, herr3, ?_⟩
        · intro e he
          simp only [List.mem_append] at he
          rcases he with (he | he) | he
          · exact hr1 e he
          · exact hr2 e he
          · exact hr3 e he
        · intro hnone
          obtain ⟨hout, hq3⟩ := hok3 hnone
          refine ⟨?_, ?_⟩
          · rw [hout, hitem, hc2.json, hc2.comments, hc2.users, hc1.json, hc1.comments,
              hc1.users]
            simp
          · intro e he
            simp only [List.mem_append] at he
            rcases he with (he | he) | he
            · exact hq1 e he
            · exact hq2 e he
            · exact hq3 e he
      · have hstep : makePostsLoop items csrfToken allComments (p :: rest) posts w =
            (([], some err2), w2) := by
          rw [makePostsLoop]; simp only [h1, h2]
        rw [h2] at hc2
        rw [hstep]
        refine ⟨ev1 ++ ev2, hc1.trans hc2, ?_, by simp, by simp⟩
        intro e he
        simp only [List.mem_append] at he
        rcases he with he | he
        · exact hr1 e he
        · exact hr2 e he
    · have hstep : makePostsLoop items csrfToken allComments (p :: rest) posts w =
          (([], some err1), w1) := by
        rw [makePostsLoop]; simp only [h1]
      rw [h1] at hc1
      rw [hstep]
      exact ⟨ev1, hc1, hr1, by simp, by simp⟩

/-! ## `makePosts` -/

theorem makePosts_failing (results : List Post) (csrfToken : String) (allComments : Bool)
    (w : World) (h : w.failing = true) :
    makePosts results csrfToken allComments w =
      (([], some Error.ErrCacheUnavailable),
        w.record (Event.cacheGetMulti (makePostsKeys results)
          (some Error.ErrCacheUnavailable))) := by
  simp [makePosts, memcacheGetMulti, h]

theorem makePosts_reading (results : List Post) (csrfToken : String) (allComments : Bool)
    (w : World) (h : w.failing = false) :
    makePosts results csrfToken allComments w =
      makePostsLoop (multiItems w.cache (makePostsKeys results)) csrfToken allComments
        results [] (w.record (Event.cacheGetMulti (makePostsKeys results) none)) := by
  simp [makePosts, memcacheGetMulti, h]

/-- A run of `makePosts`: one multi-key read, then round trips that are not cache reads; an
error comes with no posts; without error the output is the list of feed items and no store
query failed. -/
theorem makePosts_spec (results : List Post) (csrfToken : String) (allComments : Bool)
    (w : World) :
    ∃ err evs, Continues w (makePosts results csrfToken allComments w).2
        (Event.cacheGetMulti (makePostsKeys results) err :: evs) ∧
      (∀ e ∈ evs, e.isCacheRead = false) ∧
      ((makePosts results csrfToken allComments w).1.2 ≠ none →
        (makePosts results csrfToken allComments w).1.1 = []) ∧
      ((makePosts results csrfToken allComments w).1.2 = none →
        (makePosts results csrfToken allComments w).1.1 =
            results.map (feedItem (multiItems w.cache (makePostsKeys results)) w.json
              w.comments w.users csrfToken allComments) ∧
          ∀ e ∈ evs, e.isFailedStoreQuery = false) := by
  by_cases h : w.failing = true
  · rw [makePosts_failing results csrfToken allComments w h]
    exact ⟨_, [], record_continues w _, by simp, by simp, by simp⟩
  · have h0 : w.failing = false := by simpa using h
    rw [makePosts_reading results csrfToken allComments w h0]
    obtain ⟨evs, hc, hr, herr, hok⟩ := makePostsLoop_spec
      (multiItems w.cache (makePostsKeys results)) csrfToken allComments results []
      (w.record (Event.cacheGetMulti (makePostsKeys results) none))
    refine ⟨none, evs, ?_, hr, herr, ?_⟩
    · simpa using (record_continues w (Event.cacheGetMulti (makePostsKeys results) none)).trans hc
    · intro hn
      simpa using hok hn

theorem makePostsKeys_length (results : List Post) :
    (makePostsKeys results).length = 2 * results.length := by
  induction results with
  | nil => rfl
  | cons p rest ih => simp only [makePostsKeys, List.length_cons, ih]; omega

theorem makePostsKeys_eq (results : List Post) :
    makePostsKeys results = results.flatMap (fun p =>
      ["post:" ++ Itoa p.ID ++ ":commentCount", "post:" ++ Itoa p.ID ++ ":comments"]) := by
  induction results with
  | nil => rfl
  | cons p rest ih => simp [makePostsKeys, ih, commentCountKey, commentsKey]

/-- C1: whenever `makePosts` succeeds, its output has the length of its input, and the item
at every index has the row fields (ID, UserID, Imgdata, Body, Mime, CreatedAt, User) of the
input post at that index and carries the `csrfToken` argument. -/
theorem makePosts_preserves_rows (results : List Post) (csrfToken : String)
    (allComments : Bool) (w : World) (out : List Post)
    (h : (makePosts results csrfToken allComments w).1 = (out, none)) :
    out.length = results.length ∧
    ∀ (i : Nat) (hi : i < results.length) (ho : i < out.length),
      out[i].ID = results[i].ID ∧ out[i].UserID = results[i].UserID ∧
      out[i].Imgdata = results[i].Imgdata ∧ out[i].Body = results[i].Body ∧
      out[i].Mime = results[i].Mime ∧ out[i].CreatedAt = results[i].CreatedAt ∧
      out[i].User = results[i].User ∧ out[i].CSRFToken = csrfToken := by
  obtain ⟨_, _, _, _, _, hok⟩ := makePosts_spec results csrfToken allComments w
  rw [h] at hok
  obtain ⟨hout, _⟩ := hok rfl
  simp only at hout
  subst hout
  refine ⟨by simp, ?_⟩
  intro i hi ho
  simp [feedItem]

/-- C1, on the rows of posts 7 and 42 in the sample world. -/
theorem makePosts_preserves_rows_witness :
    (makePosts [post7, post42] "tok" true sampleWorld).1.1.length = 2 ∧
    ∀ (i : Nat) (_ : i < [post7, post42].length)
      (ho : i < (makePosts [post7, post42] "tok" true sampleWorld).1.1.length),
      (makePosts [post7, post42] "tok" true sampleWorld).1.1[i].ID = [post7, post42][i].ID ∧
      (makePosts [post7, post42] "tok" true sampleWorld).1.1[i].UserID
        = [post7, post42][i].UserID ∧
      (makePosts [post7, post42] "tok" true sampleWorld).1.1[i].Imgdata
        = [post7, post42][i].Imgdata ∧
      (makePosts [post7, post42] "tok" true sampleWorld).1.1[i].Body
        = [post7, post42][i].Body ∧
      (makePosts [post7, post42] "tok" true sampleWorld).1.1[i].Mime
        = [post7, post42][i].Mime ∧
      (makePosts [post7, post42] "tok" true sampleWorld).1.1[i].CreatedAt
        = [post7, post42][i].CreatedAt ∧
      (makePosts [post7, post42] "tok" true sampleWorld).1.1[i].User
        = [post7, post42][i].User ∧
      (makePosts [post7, post42] "tok" true sampleWorld).1.1[i].CSRFToken = "tok" :=
  makePosts_preserves_rows [post7, post42] "tok" true sampleWorld
    (makePosts [post7, post42] "tok" true sampleWorld).1.1 (by decide)

/-- C5: every call of `makePosts` issues exactly one multi-key cache read, as its first round
trip, and no other cache read; the key list of that read has two keys for each input post,
its comment-count key and its comments key, in input order. -/
theorem makePosts_single_multi_get (results : List Post) (csrfToken : String)
    (allComments : Bool) (w : World) :
    ∃ err evs,
      (makePosts results csrfToken allComments w).2.trace =
        w.trace ++ Event.cacheGetMulti (makePostsKeys results) err :: evs ∧
      (∀ e ∈ evs, e.isCacheRead = false) ∧
      (makePostsKeys results).length = 2 * results.length ∧
      makePostsKeys results = results.flatMap (fun p =>
        ["post:" ++ Itoa p.ID ++ ":commentCount", "post:" ++ Itoa p.ID ++ ":comments"]) := by
  obtain ⟨err, evs, hc, hr, _, _⟩ := makePosts_spec results csrfToken allComments w
  exact ⟨err, evs, hc.trace, hr, makePostsKeys_length results, makePostsKeys_eq results⟩

/-- C6: `makePosts` never returns a partial feed.  An error always comes with no posts; when
the initial multi-key read fails the call ends in that error after that single round trip,
so no store query is issued; and when any store query of the run fails, the call returns an
error and no posts. -/
theorem makePosts_no_partial_feed (results : List Post) (csrfToken : String)
    (allComments : Bool) (w : World) :
    ((makePosts results csrfToken allComments w).1.2 ≠ none →
      (makePosts results csrfToken allComments w).1.1 = []) ∧
    (w.failing = true →
      (makePosts results csrfToken allComments w).1 = ([], some Error.ErrCacheUnavailable) ∧
      (makePosts results csrfToken allComments w).2.trace =
        w.trace ++ [Event.cacheGetMulti (makePostsKeys results)
          (some Error.ErrCacheUnavailable)]) ∧
    (∃ evs, (makePosts results csrfToken allComments w).2.trace = w.trace ++ evs ∧
      ((∃ e ∈ evs, e.isFailedStoreQuery = true) →
        (makePosts results csrfToken allComments w).1.2 ≠ none ∧
        (makePosts results csrfToken allComments w).1.1 = [])) := by
  obtain ⟨err, evs, hc, _, herr, hok⟩ := makePosts_spec results csrfToken allComments w
  refine ⟨herr, ?_, _, hc.trace, ?_⟩
  · intro hf
    rw [makePosts_failing results csrfToken allComments w hf]
    exact ⟨rfl, rfl⟩
  · rintro ⟨e, he, hfail⟩
    have hne : (makePosts results csrfToken allComments w).1.2 ≠ none := by
      intro hn
      obtain ⟨_, hq⟩ := hok hn
      rcases List.mem_cons.1 he with rfl | he
      · simp [Event.isFailedStoreQuery, Event.isStoreQuery] at hfail
      · rw [hq e he] at hfail
        exact Bool.false_ne_true hfail
    exact ⟨hne, herr hne⟩

/-- C6, where the count query of the second post fails after the first post was enriched:
the failed query is in the trace and the call returns no posts. -/
theorem makePosts_no_partial_feed_witness :
    Event.dbCountComments 42 (some Error.ErrStoreUnavailable) ∈
        (makePosts [post7, post42] "tok" false sixthFails).2.trace ∧
      (makePosts [post7, post42] "tok" false sixthFails).1.1 = [] ∧
      (makePosts [post7, post42] "tok" false firstFails).1.1 = [] :=
  ⟨by decide,
    (makePosts_no_partial_feed [post7, post42] "tok" false sixthFails).1 (by decide),
    ((makePosts_no_partial_feed [post7, post42] "tok" false firstFails).2.1 (by decide)).1
      ▸ rfl⟩

/-! ## The comments query -/

theorem rowOf_createdAt (users : List User) (c : Comment) :
    (rowOf users c).CreatedAt = c.CreatedAt := rfl

/-- When every comment of the post has exactly one user row, the join yields one row for
each stored comment, in table order. -/
theorem joinedComments_eq_map (comments : List Comment) (users : List User) (postID : Int)
    (hjoin : ∀ c ∈ comments, c.PostID = postID →
      (users.filter (fun u => c.UserID = u.ID)).length = 1) :
    joinedComments comments users postID =
      (comments.filter (fun c => c.PostID = postID)).map (rowOf users) := by
  unfold joinedComments
  have hall : ∀ c ∈ comments.filter (fun c => c.PostID = postID),
      (users.filter (fun u => c.UserID = u.ID)).length = 1 := by
    intro c hc
    simp only [List.mem_filter, decide_eq_true_eq] at hc
    exact hjoin c hc.1 hc.2
  generalize comments.filter (fun c => c.PostID = postID) = stored at hall
  induction stored with
  | nil => rfl
  | cons c rest ih =>
    have h1 := hall c (List.mem_cons_self c rest)
    obtain ⟨u, hu⟩ := List.length_eq_one.1 h1
    have hrest := ih (fun d hd => hall d (List.mem_cons_of_mem c hd))
    simp only [List.flatMap_cons, List.map_cons, hrest]
    simp [rowOf, hu]

/-- The user row behind `rowOf` is a row of the users table with the comment's user id. -/
theorem rowOf_user (users : List User) (c : Comment)
    (h : (users.filter (fun u => c.UserID = u.ID)).length = 1) :
    ∃ u ∈ users, u.ID = c.UserID ∧ rowOf users c = commentRow c u := by
  obtain ⟨u, hu⟩ := List.length_eq_one.1 h
  have hmem : u ∈ users.filter (fun u => c.UserID = u.ID) := by simp [hu]
  simp only [List.mem_filter, decide_eq_true_eq] at hmem
  exact ⟨u, hmem.1, hmem.2.symm, by simp [rowOf, hu]⟩

/-- Sorting the rows is sorting the stored comments. -/
theorem orderByCreatedAtDesc_map (users : List User) (stored : List Comment) :
    orderByCreatedAtDesc (stored.map (rowOf users)) =
      (orderByCreatedAtDesc stored).map (rowOf users) := by
  unfold orderByCreatedAtDesc
  exact (List.map_insertionSort (fun a b : Comment => a.CreatedAt ≥ b.CreatedAt)
    (fun a b : Comment => a.CreatedAt ≥ b.CreatedAt) (rowOf users) stored
    (fun a _ b _ => by simp [rowOf_createdAt])).symm

/-- With pairwise distinct times, the sorted list is strictly decreasing in time. -/
theorem orderByCreatedAtDesc_strict (stored : List Comment)
    (hdistinct : stored.Pairwise (fun a b => a.CreatedAt ≠ b.CreatedAt)) :
    (orderByCreatedAtDesc stored).Pairwise (fun a b => b.CreatedAt < a.CreatedAt) := by
  haveI : IsTotal Comment (fun a b => a.CreatedAt ≥ b.CreatedAt) :=
    ⟨fun a b => le_total b.CreatedAt a.CreatedAt⟩
  haveI : IsTrans Comment (fun a b => a.CreatedAt ≥ b.CreatedAt) :=
    ⟨fun a b c hab hbc => le_trans hbc hab⟩
  have hsorted : (orderByCreatedAtDesc stored).Pairwise
      (fun a b => a.CreatedAt ≥ b.CreatedAt) :=
    List.sorted_insertionSort (fun a b : Comment => a.CreatedAt ≥ b.CreatedAt) stored
  have hperm : (orderByCreatedAtDesc stored).Perm stored :=
    List.perm_insertionSort (fun a b : Comment => a.CreatedAt ≥ b.CreatedAt) stored
  have hne : (orderByCreatedAtDesc stored).Pairwise (fun a b => a.CreatedAt ≠ b.CreatedAt) :=
    (hperm.pairwise_iff (fun {_ _} h => Ne.symm h)).2 hdistinct
  exact (hsorted.and hne).imp (fun {a b} h => lt_of_le_of_ne h.1 (Ne.symm h.2))

/-- The comments a miss attaches when at most three are asked for: the stored comments of
the post split into `older` and `newest`, the rows of `newest` being what is attached. -/
theorem commentsQuery_latest_three (comments : List Comment) (users : List User)
    (postID : Int)
    (hjoin : ∀ c ∈ comments, c.PostID = postID →
      (users.filter (fun u => c.UserID = u.ID)).length = 1)
    (hdistinct : (comments.filter (fun c => c.PostID = postID)).Pairwise
      (fun a b => a.CreatedAt ≠ b.CreatedAt)) :
    ∃ older newest : List Comment,
      (comments.filter (fun c => c.PostID = postID)).Perm (older ++ newest) ∧
      newest.length = min 3 (comments.filter (fun c => c.PostID = postID)).length ∧
      newest.Pairwise (fun a b => a.CreatedAt < b.CreatedAt) ∧
      (∀ a ∈ older, ∀ b ∈ newest, a.CreatedAt < b.CreatedAt) ∧
      List.Forall₂ (fun c a => ∃ u ∈ users, u.ID = c.UserID ∧ a = commentRow c u)
        newest (commentsQuery comments users postID true).reverse := by
  have hall : ∀ c ∈ comments.filter (fun c => c.PostID = postID),
      (users.filter (fun u => c.UserID = u.ID)).length = 1 := by
    intro c hc
    simp only [List.mem_filter, decide_eq_true_eq] at hc
    exact hjoin c hc.1 hc.2
  have hq : (commentsQuery comments users postID true).reverse =
      ((orderByCreatedAtDesc (comments.filter (fun c => c.PostID = postID))).take 3).reverse.map
        (rowOf users) := by
    simp only [commentsQuery, if_true]
    rw [joinedComments_eq_map comments users postID hjoin, orderByCreatedAtDesc_map,
      ← List.map_take, List.map_reverse]
  rw [hq]
  generalize comments.filter (fun c => c.PostID = postID) = stored at hall hdistinct
  have hstrict := orderByCreatedAtDesc_strict stored hdistinct
  have hperm : (orderByCreatedAtDesc stored).Perm stored :=
    List.perm_insertionSort (fun a b : Comment => a.CreatedAt ≥ b.CreatedAt) stored
  have hsplit : (orderByCreatedAtDesc stored).take 3 ++ (orderByCreatedAtDesc stored).drop 3
      = orderByCreatedAtDesc stored := List.take_append_drop 3 _
  refine ⟨(orderByCreatedAtDesc stored).drop 3,
    ((orderByCreatedAtDesc stored).take 3).reverse, ?_, ?_, ?_, ?_, ?_⟩
  · have h1 : stored.Perm ((orderByCreatedAtDesc stored).take 3 ++
        (orderByCreatedAtDesc stored).drop 3) := by
      rw [hsplit]; exact hperm.symm
    exact (h1.trans List.perm_append_comm).trans
      (List.Perm.append_left _ (List.reverse_perm _).symm)
  · rw [List.length_reverse, List.length_take, hperm.length_eq]
  · rw [List.pairwise_reverse]
    exact hstrict.sublist (List.take_sublist 3 _)
  · intro a ha b hb
    rw [← hsplit, List.pairwise_append] at hstrict
    exact hstrict.2.2 b (List.mem_reverse.1 hb) a ha
  · rw [List.forall₂_map_right_iff, List.forall₂_same]
    intro c hc
    have hmem : c ∈ stored :=
      hperm.subset (List.mem_of_mem_take (List.mem_reverse.1 hc))
    obtain ⟨u, hu, hid, hrow⟩ := rowOf_user users c (hall c hmem)
    exact ⟨u, hu, hid, hrow⟩

/-- C2, refuted: post 42 has four stored comments with pairwise distinct times, its comments
key is absent from the batch result and `allComments` is false; the two newest comments
were written by a user without a users row, so the inner join of the comments query drops
them, and `makePosts` attaches two comments, c1 and c2, next to the count 4. -/
theorem makePosts_miss_drops_comments_without_user :
    (multiItems orphanWorld.cache (makePostsKeys [post42])).lookup (commentsKey 42) = none ∧
    (orphanWorld.comments.filter (fun c => c.PostID = 42)).length = 4 ∧
    (orphanWorld.comments.filter (fun c => c.PostID = 42)).Pairwise
      (fun a b => a.CreatedAt ≠ b.CreatedAt) ∧
    (makePosts [post42] "tok" false orphanWorld).1 =
      ([{ scenarioAItem with Comments := [viewOf "c1" 10 "alice", viewOf "c2" 20 "bob"] }],
        none) ∧
    (makePosts [post42] "tok" false orphanWorld).1.1.map
      (fun p => (p.CommentCount, p.Comments.length)) = [(4, 2)] := by
  decide

/-- C2, amended: for a post whose comments key is absent from the batch result, with
`allComments` false, every comment of the post having exactly one user row (the comments
query inner-joins the users table) and the comments of the post having pairwise distinct
times, a successful `makePosts` attaches the rows of the `min 3 n` stored comments with the
greatest times, in ascending order of time: the stored comments split into `older` and
`newest`, everything in `older` is earlier than everything in `newest`, and the attached
comments are the query rows of `newest`, one for one. -/
theorem makePosts_miss_latest_three (results : List Post) (csrfToken : String) (w : World)
    (out : List Post) (i : Nat) (hi : i < results.length) (ho : i < out.length)
    (hrun : (makePosts results csrfToken false w).1 = (out, none))
    (hmiss : (multiItems w.cache (makePostsKeys results)).lookup
      (commentsKey results[i].ID) = none)
    (hjoin : ∀ c ∈ w.comments, c.PostID = results[i].ID →
      (w.users.filter (fun u => c.UserID = u.ID)).length = 1)
    (hdistinct : (w.comments.filter (fun c => c.PostID = results[i].ID)).Pairwise
      (fun a b => a.CreatedAt ≠ b.CreatedAt)) :
    ∃ older newest : List Comment,
      (w.comments.filter (fun c => c.PostID = results[i].ID)).Perm (older ++ newest) ∧
      newest.length = min 3 (w.comments.filter (fun c => c.PostID = results[i].ID)).length ∧
      newest.Pairwise (fun a b => a.CreatedAt < b.CreatedAt) ∧
      (∀ a ∈ older, ∀ b ∈ newest, a.CreatedAt < b.CreatedAt) ∧
      List.Forall₂ (fun c a => ∃ u ∈ w.users, u.ID = c.UserID ∧ a = commentRow c u)
        newest out[i].Comments := by
  obtain ⟨_, _, _, _, _, hok⟩ := makePosts_spec results csrfToken false w
  rw [hrun] at hok
  obtain ⟨hout, _⟩ := hok rfl
  simp only at hout
  subst hout
  have hcs : (results.map (feedItem (multiItems w.cache (makePostsKeys results)) w.json
      w.comments w.users csrfToken false))[i].Comments =
      (commentsQuery w.comments w.users results[i].ID true).reverse := by
    simp [feedItem, commentsOf, hmiss]
  rw [hcs]
  exact commentsQuery_latest_three w.comments w.users results[i].ID hjoin hdistinct

/-- C2 amended, on scenario A: post 42 with the comments c1 < c2 < c3 < c4 and an empty cache yields
the comments c2, c3, c4 in that order and the count 4. -/
theorem makePosts_miss_latest_three_witness :
    (makePosts [post42] "tok" false sampleWorld).1 = ([scenarioAItem], none) ∧
    ∃ older newest : List Comment,
      (sampleWorld.comments.filter (fun c => c.PostID = 42)).Perm (older ++ newest) ∧
      newest.length = min 3 (sampleWorld.comments.filter (fun c => c.PostID = 42)).length ∧
      newest.Pairwise (fun a b => a.CreatedAt < b.CreatedAt) ∧
      (∀ a ∈ older, ∀ b ∈ newest, a.CreatedAt < b.CreatedAt) ∧
      List.Forall₂ (fun c a => ∃ u ∈ sampleWorld.users, u.ID = c.UserID ∧ a = commentRow c u)
        newest scenarioAItem.Comments :=
  ⟨by decide,
    makePosts_miss_latest_three [post42] "tok" sampleWorld [scenarioAItem] 0
      (by decide) (by decide) (by decide) (by decide) (by decide) (by decide)⟩

/-- C3: on scenario A the second of two successive calls does not repeat the first.  The
first call (empty cache, nothing fails, every write lands) attaches c2, c3, c4; the second
call, run on the world the first one left, with the same arguments, attaches c4, c3, c2:
the same count, the same comments, the opposite order. -/
theorem makePosts_second_call_differs :
    (makePosts [post42] "tok" false sampleWorld).1 = ([scenarioAItem], none) ∧
    (∀ e ∈ (makePosts [post42] "tok" false sampleWorld).2.trace, e.err = none) ∧
    (makePosts [post42] "tok" false (makePosts [post42] "tok" false sampleWorld).2).1 =
      ([{ scenarioAItem with Comments := scenarioADescending }], none) ∧
    scenarioAItem.Comments ≠ scenarioADescending ∧
    scenarioAItem.Comments = scenarioADescending.reverse := by
  decide

theorem Atoi_syntax_zero (s : String) (h : (Atoi s).2 = some Error.ErrSyntax) :
    (Atoi s).1 = 0 := by
  unfold Atoi at h ⊢
  cases hd : s.data with
  | nil => simp
  | cons c cs =>
    simp only [hd] at h ⊢
    generalize ParseUint (if c = '+' ∨ c = '-' then cs else c :: cs) = r at h ⊢
    obtain ⟨un, err⟩ := r
    cases err with
    | none =>
      simp only at h ⊢
      split_ifs at h <;> simp at h
    | some e =>
      cases e <;> first
        | rfl
        | (simp only at h ⊢
           split_ifs at h <;> simp at h)

theorem Atoi_range_bound (s : String) (h : (Atoi s).2 = some Error.ErrRange) :
    (Atoi s).1 = maxInt ∨ (Atoi s).1 = minInt := by
  unfold Atoi at h ⊢
  cases hd : s.data with
  | nil => simp [hd] at h
  | cons c cs =>
    simp only [hd] at h ⊢
    generalize ParseUint (if c = '+' ∨ c = '-' then cs else c :: cs) = r at h ⊢
    obtain ⟨un, err⟩ := r
    cases err with
    | none =>
      simp only at h ⊢
      split_ifs at h ⊢ <;> simp at h ⊢
    | some e =>
      cases e <;> first
        | (simp only at h ⊢
           split_ifs at h ⊢ <;> simp at h ⊢)
        | simp at h

/-- C4, refuted: the cached count of post 42 is the text abc, which `Atoi` rejects with a
syntax error, and `makePosts` returns successfully, with the comment count 0 for a post
that has four comments. -/
theorem makePosts_bad_count_succeeds :
    (multiItems badCountWorld.cache (makePostsKeys [post42])).lookup (commentCountKey 42)
      = some "abc" ∧
    (Atoi "abc").2 = some Error.ErrSyntax ∧
    (makePosts [post42] "tok" false badCountWorld).1 =
      ([{ scenarioAItem with CommentCount := 0 }], none) := by
  decide

/-- C4, amended: a count value found in the batch result never makes `makePosts` fail.  The
lookup of lines 260-263 ends without error and without a round trip whatever the value is,
and in a successful call the post gets the number `Atoi` returned next to its error: 0 when
`Atoi` reports a syntax error, the largest or the smallest `int` when it reports a range
error. -/
theorem makePosts_count_hit_drops_parse_error (results : List Post) (csrfToken : String)
    (allComments : Bool) (w : World) (out : List Post) (i : Nat) (value : String)
    (hi : i < results.length) (ho : i < out.length)
    (hrun : (makePosts results csrfToken allComments w).1 = (out, none))
    (hhit : (multiItems w.cache (makePostsKeys results)).lookup
      (commentCountKey results[i].ID) = some value) :
    out[i].CommentCount = (Atoi value).1 ∧
    ((Atoi value).2 = some Error.ErrSyntax → out[i].CommentCount = 0) ∧
    ((Atoi value).2 = some Error.ErrRange →
      out[i].CommentCount = maxInt ∨ out[i].CommentCount = minInt) ∧
    ∀ w1 : World, resolveCommentCount (multiItems w.cache (makePostsKeys results))
        results[i] w1 = (({ results[i] with CommentCount := (Atoi value).1 }, none), w1) := by
  obtain ⟨_, _, _, _, _, hok⟩ := makePosts_spec results csrfToken allComments w
  rw [hrun] at hok
  obtain ⟨hout, _⟩ := hok rfl
  simp only at hout
  subst hout
  have hc : (results.map (feedItem (multiItems w.cache (makePostsKeys results)) w.json
      w.comments w.users csrfToken allComments))[i].CommentCount = (Atoi value).1 := by
    simp [feedItem, countOf, hhit]
  refine ⟨hc, fun hs => by rw [hc]; exact Atoi_syntax_zero value hs,
    fun hr => by rw [hc]; exact Atoi_range_bound value hr, ?_⟩
  intro w1
  simp [resolveCommentCount, hhit]

/-- C4 amended, on two cached texts for post 42: abc, a syntax error, gives the count 0;
twenty nines followed by a letter, a range error at the digit that leaves `uint64`, give the
largest `int`. -/
theorem makePosts_count_hit_drops_parse_error_witness :
    Atoi "abc" = (0, some Error.ErrSyntax) ∧
    Atoi "99999999999999999999x" = (9223372036854775807, some Error.ErrRange) ∧
    (makePosts [post42] "tok" false badCountWorld).1.1[0].CommentCount = 0 ∧
    ((makePosts [post42] "tok" false overflowCountWorld).1.1[0].CommentCount = maxInt ∨
      (makePosts [post42] "tok" false overflowCountWorld).1.1[0].CommentCount = minInt) ∧
    (makePosts [post42] "tok" false overflowCountWorld).1.1[0].CommentCount
      = 9223372036854775807 :=
  ⟨by decide, by decide,
   (makePosts_count_hit_drops_parse_error [post42] "tok" false badCountWorld
      (makePosts [post42] "tok" false badCountWorld).1.1 0 "abc"
      (by decide) (by decide) (by decide) (by decide)).2.1 (by decide),
   (makePosts_count_hit_drops_parse_error [post42] "tok" false overflowCountWorld
      (makePosts [post42] "tok" false overflowCountWorld).1.1 0 "99999999999999999999x"
      (by decide) (by decide) (by decide) (by decide)).2.2.1 (by decide),
   by decide⟩

/-! ## `getSessionUser` -/

theorem getSessionUser_cache_failing (uid : Int) (w : World) (h : w.failing = true) :
    getSessionUser (some uid) w =
      (User.zero, w.record (Event.cacheGet (userKey uid) (some Error.ErrCacheUnavailable))) := by
  simp [getSessionUser, memcacheGet, h]

theorem getSessionUser_hit (uid : Int) (w : World) (value : String)
    (h : w.failing = false) (hl : w.cache.lookup (userKey uid) = some value) :
    getSessionUser (some uid) w =
      (match w.json.unmarshalUser value with
        | (_, some _) => User.zero
        | (u, none) => u,
       w.record (Event.cacheGet (userKey uid) none)) := by
  simp only [getSessionUser, memcacheGet, h, hl, Bool.false_eq_true, if_false]
  have hj : (w.record (Event.cacheGet (userKey uid) none)).json = w.json := rfl
  rw [hj]
  rcases w.json.unmarshalUser value with ⟨u, _ | err⟩ <;> rfl

theorem getSessionUser_miss (uid : Int) (w : World)
    (h : w.failing = false) (hl : w.cache.lookup (userKey uid) = none) :
    getSessionUser (some uid) w =
      match dbGetUser uid (w.record (Event.cacheGet (userKey uid) (some Error.ErrCacheMiss))) with
      | (Except.error _, w2) => (User.zero, w2)
      | (Except.ok u, w2) =>
        match w2.json.marshalUser u with
        | (_, some _) => (User.zero, w2)
        | (serializedUser, none) => (u, (memcacheSet (userKey uid) serializedUser 300 w2).2) := by
  simp [getSessionUser, memcacheGet, h, hl]

theorem failing_after_record (w : World) (e : Event) :
    (w.record e).failing = w.fault (w.trace.length + 1) := by
  simp [World.failing, World.record]

/-- C7: when the cache read is a miss and the store returns the row `u` of the user id (and
`u` can be serialized), `getSessionUser` returns `u` whether the write-back succeeds or
fails; the run is the read, the query and one write of the serialization of `u` under the
key user_<id> with the expiration 300, and after a successful write the cache holds it. -/
theorem getSessionUser_miss_found (uid : Int) (w : World) (u : User) (bytes : String)
    (hread : w.failing = false)
    (hmiss : w.cache.lookup (userKey uid) = none)
    (hquery : w.fault (w.trace.length + 1) = false)
    (hrow : w.users.find? (fun r => r.ID = uid) = some u)
    (hser : w.json.marshalUser u = (bytes, none)) :
    (getSessionUser (some uid) w).1 = u ∧
    ∃ err, (getSessionUser (some uid) w).2.trace =
        w.trace ++ [Event.cacheGet (userKey uid) (some Error.ErrCacheMiss),
          Event.dbGetUser uid none,
          Event.cacheSet ("user_" ++ Itoa uid) bytes 300 err] ∧
      (err = none ↔ w.fault (w.trace.length + 2) = false) ∧
      (err = none →
        (getSessionUser (some uid) w).2.cache.lookup ("user_" ++ Itoa uid) = some bytes) := by
  have hq : (w.record (Event.cacheGet (userKey uid) (some Error.ErrCacheMiss))).failing
      = false := by rw [failing_after_record]; exact hquery
  have hdb : dbGetUser uid (w.record (Event.cacheGet (userKey uid) (some Error.ErrCacheMiss)))
      = (Except.ok u, (w.record (Event.cacheGet (userKey uid)
          (some Error.ErrCacheMiss))).record (Event.dbGetUser uid none)) := by
    simp only [dbGetUser, hq, Bool.false_eq_true, if_false]
    have : (w.record (Event.cacheGet (userKey uid) (some Error.ErrCacheMiss))).users
        = w.users := rfl
    rw [this, hrow]
  rw [getSessionUser_miss uid w hread hmiss, hdb]
  have hj : ((w.record (Event.cacheGet (userKey uid) (some Error.ErrCacheMiss))).record
      (Event.dbGetUser uid none)).json = w.json := rfl
  simp only [hj, hser]
  refine ⟨trivial, ?_⟩
  by_cases hf : w.fault (w.trace.length + 2) = true
  · refine ⟨some Error.ErrCacheUnavailable, ?_, by simp [hf], by simp⟩
    simp [memcacheSet, World.failing, World.record, hf, userKey]
  · have hf0 : w.fault (w.trace.length + 2) = false := by simpa using hf
    refine ⟨none, ?_, by simp [hf0], ?_⟩
    · simp [memcacheSet, World.failing, World.record, hf0, userKey]
    · intro _
      simp [memcacheSet, World.failing, World.record, hf0, userKey, List.lookup]

/-- C7 for user 1 of the sample world, with the write-back landing and with it failing. -/
theorem getSessionUser_miss_found_witness :
    (getSessionUser (some 1) sampleWorld).1 = alice ∧
    (getSessionUser (some 1) thirdFails).1 = alice ∧
    (getSessionUser (some 1) sampleWorld).2.cache = [("user_1", "1|alice|h1|0|0|1000")] ∧
    (getSessionUser (some 1) thirdFails).2.cache = [] :=
  ⟨(getSessionUser_miss_found 1 sampleWorld alice "1|alice|h1|0|0|1000"
      (by decide) (by decide) (by decide) (by decide) (by decide)).1,
   (getSessionUser_miss_found 1 thirdFails alice "1|alice|h1|0|0|1000"
      (by decide) (by decide) (by decide) (by decide) (by decide)).1,
   by decide, by decide⟩

/-- Whatever the session and the world, the user `getSessionUser` returns is the empty user,
or a cached value that decoded without error, or the row the store holds for the id. -/
theorem getSessionUser_result (session : Option Int) (w : World) :
    (getSessionUser session w).1 = User.zero ∨
    (∃ uid value, session = some uid ∧ w.cache.lookup (userKey uid) = some value ∧
      w.json.unmarshalUser value = ((getSessionUser session w).1, none)) ∨
    (∃ uid, session = some uid ∧
      w.users.find? (fun r => r.ID = uid) = some (getSessionUser session w).1) := by
  cases session with
  | none => left; rfl
  | some uid =>
    by_cases hf : w.failing = true
    · left; rw [getSessionUser_cache_failing uid w hf]
    · have hread : w.failing = false := by simpa using hf
      cases hl : w.cache.lookup (userKey uid) with
      | some value =>
        rw [getSessionUser_hit uid w value hread hl]
        rcases hu : w.json.unmarshalUser value with ⟨u, _ | err⟩
        · right; left; exact ⟨uid, value, rfl, hl, by simp [hu]⟩
        · left; rfl
      | none =>
        rw [getSessionUser_miss uid w hread hl]
        have husers : (w.record (Event.cacheGet (userKey uid) (some Error.ErrCacheMiss))).users
            = w.users := rfl
        by_cases hq : (w.record (Event.cacheGet (userKey uid)
            (some Error.ErrCacheMiss))).failing = true
        · left; simp [dbGetUser, hq]
        · cases hrow : w.users.find? (fun r => r.ID = uid) with
          | none => left; simp [dbGetUser, hq, husers, hrow]
          | some u =>
            have hdb : dbGetUser uid (w.record (Event.cacheGet (userKey uid)
                (some Error.ErrCacheMiss))) = (Except.ok u,
                  (w.record (Event.cacheGet (userKey uid) (some Error.ErrCacheMiss))).record
                    (Event.dbGetUser uid none)) := by
              simp [dbGetUser, hq, husers, hrow]
            rw [hdb]
            rcases hm : ((w.record (Event.cacheGet (userKey uid)
                (some Error.ErrCacheMiss))).record
                  (Event.dbGetUser uid none)).json.marshalUser u with ⟨bytes, _ | err⟩
            · right; right; exact ⟨uid, rfl, by simpa [hm] using hrow⟩
            · left; simp [hm]

/-- C8: the failure paths of `getSessionUser` all return the empty user, for which `isLogin`
is false: no user id in the session; a cached value whose decoding reports an error,
whatever the decoder had filled in before; a miss followed by a store query that fails or
finds no row; and also a cache read that fails and a row that cannot be serialized.  In
every run the result is the empty user, a cached value that decoded without error, or the
row of the store. -/
theorem getSessionUser_failure_paths (w : World) :
    (getSessionUser none w).1 = User.zero ∧
    (∀ (uid : Int) (value : String), w.failing = false →
      w.cache.lookup (userKey uid) = some value →
      (w.json.unmarshalUser value).2 ≠ none →
      (getSessionUser (some uid) w).1 = User.zero) ∧
    (∀ uid : Int, w.failing = false → w.cache.lookup (userKey uid) = none →
      (w.fault (w.trace.length + 1) = true ∨ w.users.find? (fun r => r.ID = uid) = none) →
      (getSessionUser (some uid) w).1 = User.zero) ∧
    (∀ uid : Int, w.failing = true → (getSessionUser (some uid) w).1 = User.zero) ∧
    (∀ session : Option Int, (getSessionUser session w).1 = User.zero ∨
      (∃ uid value, session = some uid ∧ w.cache.lookup (userKey uid) = some value ∧
        w.json.unmarshalUser value = ((getSessionUser session w).1, none)) ∨
      (∃ uid, session = some uid ∧
        w.users.find? (fun r => r.ID = uid) = some (getSessionUser session w).1)) ∧
    isLogin User.zero = false := by
  refine ⟨rfl, ?_, ?_, ?_, fun session => getSessionUser_result session w, rfl⟩
  · intro uid value hread hhit hbad
    rw [getSessionUser_hit uid w value hread hhit]
    rcases hu : w.json.unmarshalUser value with ⟨u, _ | err⟩
    · rw [hu] at hbad; exact absurd rfl hbad
    · rfl
  · intro uid hread hmiss hstore
    rw [getSessionUser_miss uid w hread hmiss]
    have husers : (w.record (Event.cacheGet (userKey uid) (some Error.ErrCacheMiss))).users
        = w.users := rfl
    rcases hstore with hf | hnone
    · have hq : (w.record (Event.cacheGet (userKey uid) (some Error.ErrCacheMiss))).failing
          = true := by rw [failing_after_record]; exact hf
      simp [dbGetUser, hq]
    · by_cases hq : (w.record (Event.cacheGet (userKey uid)
          (some Error.ErrCacheMiss))).failing = true
      · simp [dbGetUser, hq]
      · simp [dbGetUser, hq, husers, hnone]
  · intro uid hf
    rw [getSessionUser_cache_failing uid w hf]

/-- C8 in the sample worlds: a cached record whose decoding breaks off after the ID 7 was
read, an unknown user id, and a store that fails all leave the caller logged out. -/
theorem getSessionUser_failure_paths_witness :
    (sampleCodec.unmarshalUser "7|alice|x").1.ID = 7 ∧
    isLogin (getSessionUser (some 1) truncatedUserWorld).1 = false ∧
    isLogin (getSessionUser (some 99) sampleWorld).1 = false ∧
    isLogin (getSessionUser (some 1) secondFails).1 = false :=
  ⟨by decide,
   ((getSessionUser_failure_paths truncatedUserWorld).2.1 1 "7|alice|x"
      (by decide) (by decide) (by decide)) ▸ rfl,
   ((getSessionUser_failure_paths sampleWorld).2.2.1 99
      (by decide) (by decide) (Or.inr (by decide))) ▸ rfl,
   ((getSessionUser_failure_paths secondFails).2.2.1 1
      (by decide) (by decide) (Or.inl (by decide))) ▸ rfl⟩

/-- C9, refuted: the cache read for user 1 fails with an error that is not a miss; the
users table holds the row of user 1, which a miss would have returned; the resolver
returns the empty user and its only round trip is the failed read. -/
theorem getSessionUser_cache_error_returns_empty :
    firstFails.failing = true ∧
    firstFails.users.find? (fun r => r.ID = 1) = some alice ∧
    (getSessionUser (some 1) sampleWorld).1 = alice ∧
    (getSessionUser (some 1) firstFails).1 = User.zero ∧
    (getSessionUser (some 1) firstFails).2.trace =
      [Event.cacheGet "user_1" (some Error.ErrCacheUnavailable)] := by
  decide

/-- C9, amended: when the single-key cache read fails with an error other than a miss, the
resolver returns the empty user at once: the failed read is its only round trip, so the
store is not queried and nothing is written to the cache. -/
theorem getSessionUser_cache_error_no_fallback (uid : Int) (w : World)
    (h : w.failing = true) :
    (getSessionUser (some uid) w).1 = User.zero ∧
    (getSessionUser (some uid) w).2.trace =
      w.trace ++ [Event.cacheGet ("user_" ++ Itoa uid) (some Error.ErrCacheUnavailable)] ∧
    (getSessionUser (some uid) w).2.cache = w.cache ∧
    isLogin (getSessionUser (some uid) w).1 = false := by
  rw [getSessionUser_cache_failing uid w h]
  exact ⟨rfl, rfl, rfl, rfl⟩

/-- C9 amended, for user 1 when the first round trip fails. -/
theorem getSessionUser_cache_error_no_fallback_witness :
    (getSessionUser (some 1) firstFails).1 = User.zero ∧
    (getSessionUser (some 1) firstFails).2.trace =
      firstFails.trace ++ [Event.cacheGet ("user_" ++ Itoa 1)
        (some Error.ErrCacheUnavailable)] ∧
    (getSessionUser (some 1) firstFails).2.cache = firstFails.cache ∧
    isLogin (getSessionUser (some 1) firstFails).1 = false :=
  getSessionUser_cache_error_no_fallback 1 firstFails (by decide)

/-- C10: for every `int` n, parsing the decimal rendering of n gives n and no error; the
hit path of lines 260-263, reading that rendering, sets the count n; and the miss path of
lines 264-271, having counted n rows, returns n and writes exactly that rendering under
the post's count key, which the cache then holds if the write lands. -/
theorem commentCount_round_trip (n : Int) (hlo : minInt ≤ n) (hhi : n ≤ maxInt) :
    Atoi (Itoa n) = (n, none) ∧
    (∀ (items : List (String × String)) (p : Post) (w : World),
      items.lookup (commentCountKey p.ID) = some (Itoa n) →
      resolveCommentCount items p w = (({ p with CommentCount := n }, none), w)) ∧
    (∀ (items : List (String × String)) (p : Post) (w : World),
      items.lookup (commentCountKey p.ID) = none → w.failing = false →
      ((w.comments.filter (fun c => c.PostID = p.ID)).length : Int) = n →
      ∃ err, (resolveCommentCount items p w).1 = ({ p with CommentCount := n }, none) ∧
        (resolveCommentCount items p w).2.trace = w.trace ++
          [Event.dbCountComments p.ID none,
           Event.cacheSet (commentCountKey p.ID) (Itoa n) 0 err] ∧
        (err = none →
          (resolveCommentCount items p w).2.cache.lookup (commentCountKey p.ID)
            = some (Itoa n))) := by
  have hrt := Atoi_Itoa n hlo hhi
  refine ⟨hrt, ?_, ?_⟩
  · intro items p w hhit
    simp [resolveCommentCount, hhit, hrt]
  · intro items p w hmiss hread hcount
    have hdb : dbCountComments p.ID w =
        (Except.ok n, w.record (Event.dbCountComments p.ID none)) := by
      simp [dbCountComments, hread, hcount]
    simp only [resolveCommentCount, hmiss, hdb]
    by_cases hf : w.fault (w.trace.length + 1) = true
    · refine ⟨some Error.ErrCacheUnavailable, trivial, ?_, by simp⟩
      simp [memcacheSet, World.failing, World.record, hf]
    · have hf0 : w.fault (w.trace.length + 1) = false := by simpa using hf
      refine ⟨none, trivial, ?_, ?_⟩
      · simp [memcacheSet, World.failing, World.record, hf0]
      · intro _
        simp [memcacheSet, World.failing, World.record, hf0, List.lookup]

/-- C10 for the count 4 of post 42: the first call writes the text 4, the second reads 4. -/
theorem commentCount_round_trip_witness :
    Atoi (Itoa 4) = (4, none) ∧
    (makePosts [post42] "tok" false sampleWorld).2.cache.lookup (commentCountKey 42)
      = some (Itoa 4) ∧
    (makePosts [post42] "tok" false
      (makePosts [post42] "tok" false sampleWorld).2).1.1.map (fun p => p.CommentCount) = [4] :=
  ⟨(commentCount_round_trip 4 (by decide) (by decide)).1, by decide, by decide⟩

/-! ## Cache keys do not collide -/

theorem formatNat_injective (a b : Nat) (h : formatNat a = formatNat b) : a = b := by
  have ha := parseDigits_formatNat a
  rw [h, parseDigits_formatNat b] at ha
  exact (Option.some.inj ha).symm

/-- Two integers with the same decimal rendering are equal. -/
theorem Itoa_injective (a b : Int) (h : Itoa a = Itoa b) : a = b := by
  have hd := congrArg String.data h
  cases a with
  | ofNat m =>
    cases b with
    | ofNat n =>
      simp only [Itoa] at hd
      rw [formatNat_injective m n hd]
    | negSucc n =>
      simp only [Itoa] at hd
      obtain ⟨c, cs, hf, hc1, _⟩ := formatNat_head m
      rw [hf] at hd
      have hc : c = '-' := (List.cons.inj hd).1
      rw [hc] at hc1
      exact absurd hc1 (by decide)
  | negSucc m =>
    cases b with
    | ofNat n =>
      simp only [Itoa] at hd
      obtain ⟨c, cs, hf, hc1, _⟩ := formatNat_head n
      rw [hf] at hd
      have hc : '-' = c := (List.cons.inj hd).1
      rw [← hc] at hc1
      exact absurd hc1 (by decide)
    | negSucc n =>
      simp only [Itoa] at hd
      have hmn := formatNat_injective (m + 1) (n + 1) (List.cons.inj hd).2
      have : m = n := by omega
      rw [this]

/-- C14: the cache keys never collide.  For all integers a and b, equal comment-count keys
mean a = b, equal comments keys mean a = b, a comment-count key is never a comments key, and
neither kind of post key is ever an identity key user_<id>. -/
theorem cache_keys_do_not_collide (a b : Int) :
    (commentCountKey a = commentCountKey b → a = b) ∧
    (commentsKey a = commentsKey b → a = b) ∧
    commentCountKey a ≠ commentsKey b ∧
    commentCountKey a ≠ userKey b ∧
    commentsKey a ≠ userKey b ∧
    (userKey a = userKey b → a = b) := by
  refine ⟨?_, ?_, ?_, ?_, ?_, ?_⟩
  · intro h
    have h1 := congrArg String.data h
    simp only [commentCountKey, String.data_append] at h1
    exact Itoa_injective a b
      (String.ext (List.append_cancel_left (List.append_cancel_right h1)))
  · intro h
    have h1 := congrArg String.data h
    simp only [commentsKey, String.data_append] at h1
    exact Itoa_injective a b
      (String.ext (List.append_cancel_left (List.append_cancel_right h1)))
  · intro h
    have h1 := congrArg (fun s => s.data.reverse.head?) h
    simp [commentCountKey, commentsKey, String.data_append, List.reverse_append] at h1
  · intro h
    have h1 := congrArg (fun s => s.data.head?) h
    simp [commentCountKey, userKey, String.data_append] at h1
  · intro h
    have h1 := congrArg (fun s => s.data.head?) h
    simp [commentsKey, userKey, String.data_append] at h1
  · intro h
    have h1 := congrArg String.data h
    simp only [userKey, String.data_append] at h1
    exact Itoa_injective a b (String.ext (List.append_cancel_left h1))

/-- C14 on the posts 42 and 7 and the user 42: equal keys force equal ids, so the keys of
different posts differ. -/
theorem cache_keys_do_not_collide_witness :
    commentCountKey 42 = "post:42:commentCount" ∧ commentsKey 42 = "post:42:comments" ∧
    userKey 42 = "user_42" ∧
    commentCountKey 42 ≠ commentCountKey 7 ∧ commentsKey 42 ≠ commentsKey 7 ∧
    commentCountKey 42 ≠ commentsKey 42 ∧ commentCountKey 42 ≠ userKey 42 :=
  ⟨by decide, by decide, by decide,
    fun h => absurd ((cache_keys_do_not_collide 42 7).1 h) (by decide),
    fun h => absurd ((cache_keys_do_not_collide 42 7).2.1 h) (by decide),
    (cache_keys_do_not_collide 42 42).2.2.1,
    (cache_keys_do_not_collide 42 42).2.2.2.1⟩

/-! ## Which post the attached comments belong to -/

/-- Every row of the comments query is the row of a stored comment of the post, joined with
a user row that carries the comment's user id. -/
theorem mem_commentsQuery (comments : List Comment) (users : List User) (postID : Int)
    (limit3 : Bool) (a : Comment) (ha : a ∈ commentsQuery comments users postID limit3) :
    ∃ c ∈ comments, ∃ u ∈ users, c.PostID = postID ∧ u.ID = c.UserID ∧ a = commentRow c u := by
  have hsorted : a ∈ orderByCreatedAtDesc (joinedComments comments users postID) := by
    unfold commentsQuery at ha
    cases limit3 with
    | true => exact List.mem_of_mem_take (by simpa using ha)
    | false => simpa using ha
  have hjoined : a ∈ joinedComments comments users postID :=
    (List.mem_insertionSort (fun a b : Comment => a.CreatedAt ≥ b.CreatedAt)).1 hsorted
  simp only [joinedComments, List.mem_flatMap, List.mem_filter, List.mem_map,
    decide_eq_true_eq] at hjoined
  obtain ⟨c, ⟨hc, hpost⟩, u, ⟨hu, hid⟩, hrow⟩ := hjoined
  exact ⟨c, hc, u, hu, hpost, hid.symm, hrow.symm⟩

/-- C11, refuted: in scenario A the comments of the item for post 42 were loaded from the
store (the comments key was absent), the item's ID is 42, and every attached comment has the
PostID 0. -/
theorem makePosts_attached_postID_not_item_ID :
    (multiItems sampleWorld.cache (makePostsKeys [post42])).lookup (commentsKey 42) = none ∧
    (makePosts [post42] "tok" false sampleWorld).1 = ([scenarioAItem], none) ∧
    scenarioAItem.ID = 42 ∧
    scenarioAItem.Comments ≠ [] ∧
    ∀ c ∈ scenarioAItem.Comments, c.PostID = 0 ∧ c.PostID ≠ scenarioAItem.ID := by
  decide

/-- C11, amended: in a successful call, for an item whose comments key was absent from the
batch result, every attached comment is the query row of a comment that the store holds for
the item's ID, joined with a user row of the comment's user id; the PostID field of the
attached comment itself is not selected by the query and is 0. -/
theorem makePosts_miss_comments_of_post (results : List Post) (csrfToken : String)
    (allComments : Bool) (w : World) (out : List Post) (i : Nat)
    (hi : i < results.length) (ho : i < out.length)
    (hrun : (makePosts results csrfToken allComments w).1 = (out, none))
    (hmiss : (multiItems w.cache (makePostsKeys results)).lookup
      (commentsKey results[i].ID) = none) :
    ∀ a ∈ out[i].Comments, a.PostID = 0 ∧
      ∃ c ∈ w.comments, ∃ u ∈ w.users,
        c.PostID = out[i].ID ∧ u.ID = c.UserID ∧ a = commentRow c u := by
  obtain ⟨_, _, _, _, _, hok⟩ := makePosts_spec results csrfToken allComments w
  rw [hrun] at hok
  obtain ⟨hout, _⟩ := hok rfl
  simp only at hout
  subst hout
  have hcs : (results.map (feedItem (multiItems w.cache (makePostsKeys results)) w.json
      w.comments w.users csrfToken allComments))[i].Comments =
      (commentsQuery w.comments w.users results[i].ID (!allComments)).reverse := by
    simp [feedItem, commentsOf, hmiss]
  have hid : (results.map (feedItem (multiItems w.cache (makePostsKeys results)) w.json
      w.comments w.users csrfToken allComments))[i].ID = results[i].ID := by
    simp [feedItem]
  rw [hcs, hid]
  intro a ha
  obtain ⟨c, hc, u, hu, hpost, huid, hrow⟩ :=
    mem_commentsQuery w.comments w.users results[i].ID (!allComments) a
      (List.mem_reverse.1 ha)
  exact ⟨by rw [hrow]; rfl, c, hc, u, hu, hpost, huid, hrow⟩

/-- C11 amended, on scenario A: the three attached comments are rows of comments stored for
post 42. -/
theorem makePosts_miss_comments_of_post_witness :
    (makePosts [post42] "tok" false sampleWorld).1.1[0].ID = 42 ∧
    ∀ a ∈ (makePosts [post42] "tok" false sampleWorld).1.1[0].Comments, a.PostID = 0 ∧
      ∃ c ∈ sampleWorld.comments, ∃ u ∈ sampleWorld.users,
        c.PostID = (makePosts [post42] "tok" false sampleWorld).1.1[0].ID ∧
        u.ID = c.UserID ∧ a = commentRow c u :=
  ⟨by decide,
    makePosts_miss_comments_of_post [post42] "tok" false sampleWorld
      (makePosts [post42] "tok" false sampleWorld).1.1 0
      (by decide) (by decide) (by decide) (by decide)⟩

/-! ## How many store queries a successful call issues -/

theorem resolveCommentCount_queries (items : List (String × String)) (p : Post) (w : World) :
    ∃ evs, (resolveCommentCount items p w).2.trace = w.trace ++ evs ∧
      ((resolveCommentCount items p w).1.2 = none →
        evs.filter Event.isStoreQuery =
          match items.lookup (commentCountKey p.ID) with
          | some _ => []
          | none => [Event.dbCountComments p.ID none]) := by
  unfold resolveCommentCount
  cases hl : items.lookup (commentCountKey p.ID) with
  | some value => exact ⟨[], by simp, by simp⟩
  | none =>
    rcases dbCountComments_cases p.ID w with h | h
    · exact ⟨_, by simpa [h] using (record_continues w _).trace, by simp [h]⟩
    · obtain ⟨err, hc⟩ := memcacheSet_continues (commentCountKey p.ID)
        (Itoa ((w.comments.filter (fun c => c.PostID = p.ID)).length : Int)) 0
        (w.record (Event.dbCountComments p.ID none))
      refine ⟨_, by simpa [h] using ((record_continues w _).trans hc).trace, ?_⟩
      simp [Event.isStoreQuery]

theorem resolveComments_queries (items : List (String × String)) (allComments : Bool)
    (p : Post) (w : World) :
    ∃ evs, (resolveComments items allComments p w).2.trace = w.trace ++ evs ∧
      ((resolveComments items allComments p w).1.2 = none →
        evs.filter Event.isStoreQuery =
          match items.lookup (commentsKey p.ID) with
          | some _ => []
          | none => [Event.dbSelectComments p.ID (!allComments) none]) := by
  unfold resolveComments
  cases hl : items.lookup (commentsKey p.ID) with
  | some value =>
    refine ⟨[], ?_, by simp⟩
    rcases hu : w.json.unmarshalComments value with ⟨cs, _ | err⟩ <;> simp [hu]
  | none =>
    rcases dbSelectComments_cases p.ID (!allComments) w with h | h
    · exact ⟨_, by simpa [h] using (record_continues w _).trace, by simp [h]⟩
    · rcases hm : (w.record (Event.dbSelectComments p.ID (!allComments) none)).json.marshalComments
          (commentsQuery w.comments w.users p.ID (!allComments)) with ⟨bytes, _ | err⟩
      · obtain ⟨err, hc⟩ := memcacheSet_continues (commentsKey p.ID) bytes 0
          (w.record (Event.dbSelectComments p.ID (!allComments) none))
        refine ⟨_, by simpa [h, hm] using ((record_continues w _).trans hc).trace, ?_⟩
        simp [Event.isStoreQuery]
      · exact ⟨_, by simpa [h, hm] using (record_continues w _).trace, by simp [h, hm]⟩

/-- The store queries of a successful run of the second loop are those of its rows, in
order. -/
theorem makePostsLoop_queries (items : List (String × String)) (csrfToken : String)
    (allComments : Bool) : ∀ (rest posts : List Post) (w : World),
    ∃ evs, (makePostsLoop items csrfToken allComments rest posts w).2.trace = w.trace ++ evs ∧
      ((makePostsLoop items csrfToken allComments rest posts w).1.2 = none →
        evs.filter Event.isStoreQuery = rest.flatMap (storeQueriesOf items allComments)) := by
  intro rest
  induction rest with
  | nil =>
    intro posts w
    exact ⟨[], by simp [makePostsLoop], by simp⟩
  | cons p rest ih =>
    intro posts w
    obtain ⟨ev1, ht1, hq1⟩ := resolveCommentCount_queries items p w
    obtain ⟨_, _, _, hok1⟩ := resolveCommentCount_spec items p w
    rcases h1 : resolveCommentCount items p w with ⟨⟨p1, _ | err1⟩, w1⟩
    · rw [h1] at ht1 hq1 hok1
      have hp1 : p1.ID = p.ID := by
        have hp := (hok1 rfl).1
        simp only at hp
        rw [hp]
      have hq1' := hq1 rfl
      simp only at ht1
      obtain ⟨ev2, ht2, hq2⟩ := resolveComments_queries items allComments p1 w1
      rcases h2 : resolveComments items allComments p1 w1 with ⟨⟨p2, _ | err2⟩, w2⟩
      · rw [h2] at ht2 hq2
        have hq2' := hq2 rfl
        simp only at ht2
        rw [hp1] at hq2'
        obtain ⟨ev3, ht3, hq3⟩ :=
          ih (posts ++ [{ reverseOnMiss items p2 with CSRFToken := csrfToken }]) w2
        have hstep : makePostsLoop items csrfToken allComments (p :: rest) posts w =
            makePostsLoop items csrfToken allComments rest
              (posts ++ [{ reverseOnMiss items p2 with CSRFToken := csrfToken }]) w2 := by
          rw [makePostsLoop]; simp only [h1, h2]
        rw [hstep]
        refine ⟨ev1 ++ ev2 ++ ev3, by rw [ht3, ht2, ht1]; simp, ?_⟩
        intro hn
        rw [List.filter_append, List.filter_append, hq1', hq2', hq3 hn]
        simp [storeQueriesOf]
      · have hstep : makePostsLoop items csrfToken allComments (p :: rest) posts w =
            (([], some err2), w2) := by
          rw [makePostsLoop]; simp only [h1, h2]
        rw [h2] at ht2
        rw [hstep]
        exact ⟨ev1 ++ ev2, by simp only at ht2; rw [ht2, ht1]; simp, by simp⟩
    · have hstep : makePostsLoop items csrfToken allComments (p :: rest) posts w =
          (([], some err1), w1) := by
        rw [makePostsLoop]; simp only [h1]
      rw [h1] at ht1
      rw [hstep]
      exact ⟨ev1, ht1, by simp⟩

theorem storeQueriesOf_length (items : List (String × String)) (allComments : Bool)
    (p : Post) : (storeQueriesOf items allComments p).length ≤ 2 := by
  unfold storeQueriesOf
  cases items.lookup (commentCountKey p.ID) <;> cases items.lookup (commentsKey p.ID) <;> simp

theorem flatMap_storeQueriesOf_length (items : List (String × String)) (allComments : Bool)
    (results : List Post) :
    (results.flatMap (storeQueriesOf items allComments)).length ≤ 2 * results.length := by
  induction results with
  | nil => simp
  | cons p rest ih =>
    have := storeQueriesOf_length items allComments p
    simp only [List.flatMap_cons, List.length_append, List.length_cons]
    omega

theorem flatMap_storeQueriesOf_present (items : List (String × String)) (allComments : Bool)
    (results : List Post)
    (h : ∀ p ∈ results, (items.lookup (commentCountKey p.ID)).isSome = true ∧
      (items.lookup (commentsKey p.ID)).isSome = true) :
    results.flatMap (storeQueriesOf items allComments) = [] := by
  induction results with
  | nil => rfl
  | cons p rest ih =>
    obtain ⟨h1, h2⟩ := h p (List.mem_cons_self p rest)
    obtain ⟨v1, hv1⟩ := Option.isSome_iff_exists.1 h1
    obtain ⟨v2, hv2⟩ := Option.isSome_iff_exists.1 h2
    rw [List.flatMap_cons, ih (fun q hq => h q (List.mem_cons_of_mem p hq))]
    simp [storeQueriesOf, hv1, hv2]

/-- C13: the store queries of a successful `makePosts` call are, post by post in input
order, the count query when the post's count key is absent from the batch result and the
comments query when its comments key is absent, and no others: one query for each absent
key, none for a present key.  So there are at most 2n of them for n posts, and none at all
when every count key and comments key is present. -/
theorem makePosts_store_queries (results : List Post) (csrfToken : String)
    (allComments : Bool) (w : World)
    (hrun : (makePosts results csrfToken allComments w).1.2 = none) :
    ∃ evs, (makePosts results csrfToken allComments w).2.trace =
        w.trace ++ Event.cacheGetMulti (makePostsKeys results) none :: evs ∧
      evs.filter Event.isStoreQuery = results.flatMap
        (storeQueriesOf (multiItems w.cache (makePostsKeys results)) allComments) ∧
      (evs.filter Event.isStoreQuery).length ≤ 2 * results.length ∧
      ((∀ p ∈ results,
          ((multiItems w.cache (makePostsKeys results)).lookup
            (commentCountKey p.ID)).isSome = true ∧
          ((multiItems w.cache (makePostsKeys results)).lookup
            (commentsKey p.ID)).isSome = true) →
        evs.filter Event.isStoreQuery = []) := by
  by_cases hf : w.failing = true
  · rw [makePosts_failing results csrfToken allComments w hf] at hrun
    simp at hrun
  · have h0 : w.failing = false := by simpa using hf
    rw [makePosts_reading results csrfToken allComments w h0] at hrun ⊢
    obtain ⟨evs, ht, hq⟩ := makePostsLoop_queries
      (multiItems w.cache (makePostsKeys results)) csrfToken allComments results []
      (w.record (Event.cacheGetMulti (makePostsKeys results) none))
    have hqs := hq hrun
    refine ⟨evs, ?_, hqs, ?_, ?_⟩
    · rw [ht]; simp [World.record]
    · rw [hqs]; exact flatMap_storeQueriesOf_length _ allComments results
    · intro hall
      rw [hqs]; exact flatMap_storeQueriesOf_present _ allComments results hall

/-- C13 on scenario A: the first call issues the count query and the comments query of post
42; the second call, which finds both keys, issues only the multi-key read. -/
theorem makePosts_store_queries_witness :
    (makePosts [post42] "tok" false sampleWorld).2.trace.filter Event.isStoreQuery =
      [Event.dbCountComments 42 none, Event.dbSelectComments 42 true none] ∧
    (makePosts [post42] "tok" false (makePosts [post42] "tok" false sampleWorld).2).2.trace =
      (makePosts [post42] "tok" false sampleWorld).2.trace ++
        [Event.cacheGetMulti ["post:42:commentCount", "post:42:comments"] none] ∧
    ∃ evs, (makePosts [post42] "tok" false sampleWorld).2.trace =
        sampleWorld.trace ++ Event.cacheGetMulti (makePostsKeys [post42]) none :: evs ∧
      evs.filter Event.isStoreQuery = [post42].flatMap
        (storeQueriesOf (multiItems sampleWorld.cache (makePostsKeys [post42])) false) ∧
      (evs.filter Event.isStoreQuery).length ≤ 2 * [post42].length ∧
      ((∀ p ∈ [post42],
          ((multiItems sampleWorld.cache (makePostsKeys [post42])).lookup
            (commentCountKey p.ID)).isSome = true ∧
          ((multiItems sampleWorld.cache (makePostsKeys [post42])).lookup
            (commentsKey p.ID)).isSome = true) →
        evs.filter Event.isStoreQuery = []) :=
  ⟨by decide, by decide, makePosts_store_queries [post42] "tok" false sampleWorld (by decide)⟩

/-! ## What `getSessionUser` reads and writes -/

theorem userKey_injective (a b : Int) (h : userKey a = userKey b) : a = b := by
  have h1 := congrArg String.data h
  simp only [userKey, String.data_append] at h1
  exact Itoa_injective a b (String.ext (List.append_cancel_left h1))

theorem lookup_filter_ne (cache : List (String × String)) (k k0 : String) (h : k ≠ k0) :
    (cache.filter (fun kv => kv.1 ≠ k0)).lookup k = cache.lookup k := by
  induction cache with
  | nil => rfl
  | cons kv rest ih =>
    obtain ⟨k1, v1⟩ := kv
    by_cases h1 : k1 = k0
    · subst h1
      have hne : (k == k1) = false := by simpa using h
      simpa [List.filter, List.lookup, hne] using ih
    · by_cases h2 : k = k1
      · subst h2
        simp [List.filter, List.lookup, h1]
      · have hne : (k == k1) = false := by simpa using h2
        simpa [List.filter, List.lookup, h1, hne] using ih

theorem dbGetUser_cases (uid : Int) (w : World) :
    dbGetUser uid w = (Except.error Error.ErrStoreUnavailable,
        w.record (Event.dbGetUser uid (some Error.ErrStoreUnavailable))) ∨
    (w.users.find? (fun r => r.ID = uid) = none ∧
      dbGetUser uid w = (Except.error Error.ErrNoRows,
        w.record (Event.dbGetUser uid (some Error.ErrNoRows)))) ∨
    (∃ u, w.users.find? (fun r => r.ID = uid) = some u ∧
      dbGetUser uid w = (Except.ok u, w.record (Event.dbGetUser uid none))) := by
  unfold dbGetUser
  by_cases h : w.failing = true
  · left; simp [h]
  · cases hrow : w.users.find? (fun r => r.ID = uid) with
    | none => right; left; simp [h]
    | some u => right; right; exact ⟨u, rfl, by simp [h]⟩

theorem memcacheSet_cases (key value : String) (expiration : Int) (w : World) :
    memcacheSet key value expiration w = (some Error.ErrCacheUnavailable,
        w.record (Event.cacheSet key value expiration (some Error.ErrCacheUnavailable))) ∨
    memcacheSet key value expiration w =
      (none, { w.record (Event.cacheSet key value expiration none) with
                cache := (key, value) :: w.cache.filter (fun kv => kv.1 ≠ key) }) := by
  unfold memcacheSet
  by_cases h : w.failing = true
  · left; simp [h]
  · right; simp [h]

theorem find_some_ID (users : List User) (uid : Int) (u : User)
    (h : users.find? (fun r => r.ID = uid) = some u) : u.ID = uid := by
  have := List.find?_some h
  simpa using this

/-- The runs of `getSessionUser`: no round trip; the cache read alone; the read (a miss) and
the store query; or the read, a query that returned the row `u`, and one write of the
serialization of `u` under the user's key.  Tables and serializer stay as they are, and the
cache changes only by a write that landed. -/
theorem getSessionUser_run (session : Option Int) (w : World) :
    (getSessionUser session w).2.users = w.users ∧
    (getSessionUser session w).2.json = w.json ∧
    (((getSessionUser session w).2.trace = w.trace ∧
        (getSessionUser session w).2.cache = w.cache) ∨
     (∃ uid err, session = some uid ∧
        (getSessionUser session w).2.trace = w.trace ++ [Event.cacheGet (userKey uid) err] ∧
        (getSessionUser session w).2.cache = w.cache) ∨
     (∃ uid err, session = some uid ∧
        (getSessionUser session w).2.trace = w.trace ++
          [Event.cacheGet (userKey uid) (some Error.ErrCacheMiss), Event.dbGetUser uid err] ∧
        (getSessionUser session w).2.cache = w.cache) ∨
     (∃ uid u bytes err, session = some uid ∧
        w.users.find? (fun r => r.ID = uid) = some u ∧
        w.json.marshalUser u = (bytes, none) ∧
        (getSessionUser session w).2.trace = w.trace ++
          [Event.cacheGet (userKey uid) (some Error.ErrCacheMiss), Event.dbGetUser uid none,
           Event.cacheSet (userKey uid) bytes 300 err] ∧
        ((getSessionUser session w).2.cache = w.cache ∨
         (getSessionUser session w).2.cache =
           (userKey uid, bytes) :: w.cache.filter (fun kv => kv.1 ≠ userKey uid)))) := by
  cases session with
  | none => exact ⟨rfl, rfl, Or.inl ⟨rfl, rfl⟩⟩
  | some uid =>
    by_cases hf : w.failing = true
    · rw [getSessionUser_cache_failing uid w hf]
      exact ⟨rfl, rfl, Or.inr (Or.inl ⟨uid, _, rfl, rfl, rfl⟩)⟩
    · have hread : w.failing = false := by simpa using hf
      cases hl : w.cache.lookup (userKey uid) with
      | some value =>
        rw [getSessionUser_hit uid w value hread hl]
        exact ⟨rfl, rfl, Or.inr (Or.inl ⟨uid, _, rfl, rfl, rfl⟩)⟩
      | none =>
        rw [getSessionUser_miss uid w hread hl]
        rcases dbGetUser_cases uid
          (w.record (Event.cacheGet (userKey uid) (some Error.ErrCacheMiss)))
          with h | ⟨_, h⟩ | ⟨u, hrow, h⟩
        · rw [h]
          exact ⟨rfl, rfl, Or.inr (Or.inr (Or.inl ⟨uid, some Error.ErrStoreUnavailable, rfl,
            by simp [World.record], rfl⟩))⟩
        · rw [h]
          exact ⟨rfl, rfl, Or.inr (Or.inr (Or.inl ⟨uid, some Error.ErrNoRows, rfl,
            by simp [World.record], rfl⟩))⟩
        · rw [h]
          have hj : ((w.record (Event.cacheGet (userKey uid)
              (some Error.ErrCacheMiss))).record (Event.dbGetUser uid none)).json
                = w.json := rfl
          have hrow0 : w.users.find? (fun r => r.ID = uid) = some u := hrow
          simp only [hj]
          rcases hm : w.json.marshalUser u with ⟨bytes, _ | err⟩
          · rcases memcacheSet_cases (userKey uid) bytes 300
              ((w.record (Event.cacheGet (userKey uid) (some Error.ErrCacheMiss))).record
                (Event.dbGetUser uid none)) with hs | hs
            · simp only [hs]
              exact ⟨rfl, rfl, Or.inr (Or.inr (Or.inr ⟨uid, u, bytes,
                some Error.ErrCacheUnavailable, rfl, hrow0, hm,
                by simp [World.record], Or.inl rfl⟩))⟩
            · simp only [hs]
              exact ⟨rfl, rfl, Or.inr (Or.inr (Or.inr ⟨uid, u, bytes, none, rfl, hrow0, hm,
                by simp [World.record], Or.inr rfl⟩))⟩
          · exact ⟨rfl, rfl, Or.inr (Or.inr (Or.inl ⟨uid, none, rfl, by simp [World.record],
              rfl⟩))⟩

/-- One call keeps the identity cache sound: a write that lands stores the serialization of
the row the store returned for that id, and every other entry is left as it was. -/
theorem getSessionUser_sound (session : Option Int) (w : World)
    (h : identityCacheSound w) : identityCacheSound (getSessionUser session w).2 := by
  obtain ⟨husers, hjson, hrun⟩ := getSessionUser_run session w
  have hsame : (getSessionUser session w).2.cache = w.cache →
      identityCacheSound (getSessionUser session w).2 := by
    intro hc uid value hl
    rw [hc] at hl
    rw [husers, hjson]
    exact h uid value hl
  rcases hrun with ⟨_, hc⟩ | ⟨_, _, _, _, hc⟩ | ⟨_, _, _, _, hc⟩ |
    ⟨uid, u, bytes, _, _, hrow, hser, _, hc | hc⟩
  · exact hsame hc
  · exact hsame hc
  · exact hsame hc
  · exact hsame hc
  · intro uid1 value hl
    rw [hc] at hl
    rw [husers, hjson]
    by_cases hk : userKey uid1 = userKey uid
    · have hid : uid1 = uid := userKey_injective uid1 uid hk
      subst hid
      simp only [List.lookup, beq_self_eq_true] at hl
      have hv : bytes = value := Option.some.inj hl
      subst hv
      exact ⟨u, hrow, find_some_ID w.users uid1 u hrow, hser⟩
    · have hne : (userKey uid1 == userKey uid) = false := by simpa using hk
      simp only [List.lookup, hne] at hl
      rw [lookup_filter_ne w.cache (userKey uid1) (userKey uid) hk] at hl
      exact h uid1 value hl

theorem resolveAll_sound (sessions : List (Option Int)) :
    ∀ w : World, identityCacheSound w → identityCacheSound (resolveAll sessions w) := by
  induction sessions with
  | nil => intro w h; exact h
  | cons session rest ih =>
    intro w h
    exact ih _ (getSessionUser_sound session w h)

/-- C12: in every call `getSessionUser` issues at most one store query and at most one cache
write; a cache write occurs only as the third round trip of a run whose second round trip is
the store query that returned the row of that user id, and it writes the serialization of
that row under that user's key.  So a sound identity cache stays sound, and from a cache
with no identity entries every sequence of calls leaves only entries of users that the
store holds. -/
theorem getSessionUser_reads_and_writes (w : World) (session : Option Int) :
    (∃ evs, (getSessionUser session w).2.trace = w.trace ++ evs ∧
      (evs.filter Event.isStoreQuery).length ≤ 1 ∧
      (evs.filter Event.isCacheWrite).length ≤ 1 ∧
      ∀ e ∈ evs, e.isCacheWrite = true →
        ∃ uid u bytes err, session = some uid ∧
          w.users.find? (fun r => r.ID = uid) = some u ∧ u.ID = uid ∧
          w.json.marshalUser u = (bytes, none) ∧
          e = Event.cacheSet (userKey uid) bytes 300 err ∧
          evs = [Event.cacheGet (userKey uid) (some Error.ErrCacheMiss),
            Event.dbGetUser uid none, e]) ∧
    (identityCacheSound w → identityCacheSound (getSessionUser session w).2) ∧
    ((∀ uid : Int, w.cache.lookup (userKey uid) = none) →
      ∀ sessions : List (Option Int), identityCacheSound (resolveAll sessions w)) := by
  refine ⟨?_, getSessionUser_sound session w, ?_⟩
  · obtain ⟨_, _, hrun⟩ := getSessionUser_run session w
    rcases hrun with ⟨ht, _⟩ | ⟨uid, err, _, ht, _⟩ | ⟨uid, err, _, ht, _⟩ |
      ⟨uid, u, bytes, err, hs, hrow, hser, ht, _⟩
    · exact ⟨[], by simpa using ht, by simp, by simp, by simp⟩
    · exact ⟨_, ht, by simp [Event.isStoreQuery], by simp [Event.isCacheWrite],
        by simp [Event.isCacheWrite]⟩
    · exact ⟨_, ht, by simp [Event.isStoreQuery], by simp [Event.isCacheWrite],
        by simp [Event.isCacheWrite]⟩
    · refine ⟨_, ht, by simp [Event.isStoreQuery], by simp [Event.isCacheWrite], ?_⟩
      intro e he hw
      simp only [List.mem_cons, List.mem_singleton, List.not_mem_nil, or_false] at he
      rcases he with rfl | rfl | rfl
      · simp [Event.isCacheWrite] at hw
      · simp [Event.isCacheWrite] at hw
      · exact ⟨uid, u, bytes, err, hs, hrow, find_some_ID w.users uid u hrow, hser, rfl, rfl⟩
  · intro hempty sessions
    refine resolveAll_sound sessions w ?_
    intro uid value hl
    rw [hempty uid] at hl
    cases hl

/-- C12 in the sample world: resolving user 1 is the read, the query and one write; and after
a sequence of calls for known and unknown ids the identity cache is sound. -/
theorem getSessionUser_reads_and_writes_witness :
    (getSessionUser (some 1) sampleWorld).2.trace =
      [Event.cacheGet "user_1" (some Error.ErrCacheMiss), Event.dbGetUser 1 none,
        Event.cacheSet "user_1" "1|alice|h1|0|0|1000" 300 none] ∧
    (resolveAll [some 1, some 99, none, some 1, some 2] sampleWorld).cache =
      [("user_2", "2|bob|h2|0|0|1001"), ("user_1", "1|alice|h1|0|0|1000")] ∧
    identityCacheSound (resolveAll [some 1, some 99, none, some 1, some 2] sampleWorld) :=
  ⟨by decide, by decide,
    (getSessionUser_reads_and_writes sampleWorld none).2.2 (fun _ => rfl)
      [some 1, some 99, none, some 1, some 2]⟩

end PrivateIsu
